import Mathlib

set_option maxRecDepth 40000

/-!
Verification of the Even G2 smart-glasses output protocol core
(`src/g2_output.py`): packet framing, checksums, varint encoding,
teleprompter text formatting, and the per-session counter state machine.

Byte strings are modelled as `List Nat` whose elements are expected to be
below 256 (the hypotheses of the theorems state this where needed).
Python's `bytes([...])` constructor, which raises `ValueError` when an
element is out of `0..255`, is modelled by the `Option`-valued `bytesOf`;
fallible frame construction therefore returns `Option (List Nat)`, with
`none` standing for a raised exception.
-/

namespace G2

set_option maxRecDepth 10000

/-! ## Byte-string construction (Python `bytes([...])`) -/

/-- Model of Python `bytes(listOfInts)`: succeeds iff every element fits in
a byte, otherwise raises (`none`). -/
def bytesOf (l : List Nat) : Option (List Nat) :=
  if l.all (fun b => b < 256) then some l else none

/-! ## CRC-16/CCITT (from `crc16_ccitt` in the source) -/

/-- One shift-and-conditionally-xor round of CRC-16/CCITT: the body of the
inner `for _ in range(8)` loop of `crc16_ccitt`. -/
def crc16Round (crc : Nat) : Nat :=
  (if crc &&& 0x8000 != 0 then (crc <<< 1) ^^^ 0x1021 else crc <<< 1) &&& 0xFFFF

/-- CRC-16/CCITT for packet framing, translated from `crc16_ccitt`:
initial value `0xFFFF`, polynomial `0x1021`, each data byte xored into the
high byte, eight rounds per byte, no final xor. -/
def crc16_ccitt (data : List Nat) : Nat :=
  data.foldl
    (fun crc byte =>
      crc16Round (crc16Round (crc16Round (crc16Round
        (crc16Round (crc16Round (crc16Round (crc16Round (crc ^^^ (byte <<< 8))))))))))
    0xFFFF

/-! ## Varint encoding (from `encode_varint` in the source) -/

/-- Recursion core of `encode_varint`.  The first argument is structural
fuel bounding the loop; `encode_varint` passes `value` itself, which is
always sufficient because `value >>> 7 < value` whenever the loop
continues, so the fuel-exhausted branch is unreachable
(`encode_varint_unfold` below proves the fuel-free equation). -/
def encodeVarintGo : Nat → Nat → List Nat
  | 0, value => [value &&& 0x7F]
  | fuel + 1, value =>
      if value > 0x7F then
        ((value &&& 0x7F) ||| 0x80) :: encodeVarintGo fuel (value >>> 7)
      else
        [value &&& 0x7F]

/-- Encode an unsigned integer as a protobuf base-128 varint, translated
from `encode_varint`: 7 data bits per byte, continuation bit `0x80` on all
but the last byte, least-significant group first. -/
def encode_varint (value : Nat) : List Nat := encodeVarintGo value value

theorem shiftRight7_lt (v : Nat) (h : v > 0x7F) : v >>> 7 < v := by
  rw [Nat.shiftRight_eq_div_pow]
  exact Nat.div_lt_self (by omega) (by norm_num)

theorem encodeVarintGo_fuel_irrel :
    ∀ fuel₁ fuel₂ v : Nat, v ≤ fuel₁ → v ≤ fuel₂ →
      encodeVarintGo fuel₁ v = encodeVarintGo fuel₂ v := by
  intro fuel₁
  induction fuel₁ with
  | zero =>
      intro fuel₂ v h1 _
      have hv : v = 0 := by omega
      subst hv
      cases fuel₂ with
      | zero => rfl
      | succ fuel₂ =>
          show _ = if (0 : Nat) > 0x7F then _ else _
          rw [if_neg (by omega)]
          rfl
  | succ fuel₁ ih =>
      intro fuel₂ v h1 h2
      cases fuel₂ with
      | zero =>
          have hv : v = 0 := by omega
          subst hv
          show (if (0 : Nat) > 0x7F then _ else _) = _
          rw [if_neg (by omega)]
          rfl
      | succ fuel₂ =>
          show (if v > 0x7F then _ :: encodeVarintGo fuel₁ (v >>> 7) else _)
            = (if v > 0x7F then _ :: encodeVarintGo fuel₂ (v >>> 7) else _)
          by_cases h : v > 0x7F

          · rw [if_pos h, if_pos h,
              ih fuel₂ (v >>> 7) (by have := shiftRight7_lt v h; omega)
                (by have := shiftRight7_lt v h; omega)]
          · rw [if_neg h, if_neg h]

/-- The loop equation of `encode_varint`, with the fuel hidden. -/
theorem encode_varint_unfold (value : Nat) :
    encode_varint value =
      if value > 0x7F then
        ((value &&& 0x7F) ||| 0x80) :: encode_varint (value >>> 7)
      else
        [value &&& 0x7F] := by
  show encodeVarintGo value value = _
  cases hv : value with
  | zero => rw [if_neg (by omega)]; rfl
  | succ n =>
      show (if n + 1 > 0x7F then _ :: encodeVarintGo n ((n + 1) >>> 7) else _) = _
      by_cases h : n + 1 > 0x7F
      · rw [if_pos h, if_pos h]
        have hlt := shiftRight7_lt (n + 1) h
        rw [encodeVarintGo_fuel_irrel n ((n + 1) >>> 7) ((n + 1) >>> 7)
          (by omega) le_rfl]
        rfl
      · rw [if_neg h, if_neg h]

/-- Standard base-128 varint decoding (the decoder described by the spec,
used to state the round-trip property): 7 data bits per byte,
little-endian group order. -/
def decodeVarint : List Nat → Nat
  | [] => 0
  | b :: rest => (b &&& 0x7F) + decodeVarint rest * 128

@[simp] theorem decodeVarint_nil : decodeVarint [] = 0 := rfl

@[simp] theorem decodeVarint_cons (b : Nat) (rest : List Nat) :
    decodeVarint (b :: rest) = (b &&& 0x7F) + decodeVarint rest * 128 := rfl

/-! ## Packet codec (from `build_packet` in the source) -/

/-- Build a G2 protocol packet, translated from `build_packet`: 8-byte
header `[0xAA, 0x21, seq, len(payload)+2, total_pkts, pkt_num, svc_hi,
svc_lo]`, then the payload, then the CRC-16/CCITT of the payload stored
little-endian.  Returns `none` when a header byte is out of range (Python
raises `ValueError` inside `bytes([...])`). -/
def build_packet (seq svc_hi svc_lo : Nat) (payload : List Nat)
    (total_pkts pkt_num : Nat) : Option (List Nat) :=
  match bytesOf [0xAA, 0x21, seq, payload.length + 2, total_pkts, pkt_num, svc_hi, svc_lo] with
  | none => none
  | some header =>
      let crc := crc16_ccitt payload
      some (header ++ payload ++ [crc &&& 0xFF, (crc >>> 8) &&& 0xFF])

/-! ## Basic arithmetic helpers -/

theorem and_255_eq_mod (x : Nat) : x &&& 0xFF = x % 256 := by
  have h := Nat.and_pow_two_sub_one_eq_mod x 8
  norm_num at h
  exact h

theorem shiftRight8_eq_div (x : Nat) : x >>> 8 = x / 256 := by
  have h := Nat.shiftRight_eq_div_pow x 8
  norm_num at h
  exact h

/-- `build_packet` succeeds and produces the documented layout whenever
every header byte fits in a byte. -/
theorem build_packet_some (seq svc_hi svc_lo total_pkts pkt_num : Nat)
    (payload : List Nat)
    (hseq : seq < 256) (hhi : svc_hi < 256) (hlo : svc_lo < 256)
    (htot : total_pkts < 256) (hnum : pkt_num < 256)
    (hlen : payload.length ≤ 253) :
    build_packet seq svc_hi svc_lo payload total_pkts pkt_num =
      some ([0xAA, 0x21, seq, payload.length + 2, total_pkts, pkt_num, svc_hi, svc_lo]
        ++ payload
        ++ [crc16_ccitt payload &&& 0xFF, (crc16_ccitt payload >>> 8) &&& 0xFF]) := by
  have hbytes :
      bytesOf [0xAA, 0x21, seq, payload.length + 2, total_pkts, pkt_num, svc_hi, svc_lo] =
        some [0xAA, 0x21, seq, payload.length + 2, total_pkts, pkt_num, svc_hi, svc_lo] := by
    unfold bytesOf
    rw [if_pos]
    simp only [List.all_cons, List.all_nil, Bool.and_eq_true, decide_eq_true_eq]
    refine ⟨by norm_num, by norm_num, hseq, by omega, htot, hnum, hhi, hlo, trivial⟩
  unfold build_packet
  rw [hbytes]

/-- `build_packet` raises (returns `none`) when the payload is longer than
253 bytes, because the length byte `len(payload) + 2` then overflows. -/
theorem build_packet_none_of_long (seq svc_hi svc_lo total_pkts pkt_num : Nat)
    (payload : List Nat) (hlen : payload.length > 253) :
    build_packet seq svc_hi svc_lo payload total_pkts pkt_num = none := by
  unfold build_packet bytesOf
  rw [if_neg]
  simp only [List.all_cons, List.all_nil, Bool.and_eq_true, decide_eq_true_eq]
  omega

/-- `build_packet` raises (returns `none`) when `total_pkts` does not fit
in a byte. -/
theorem build_packet_none_of_total (seq svc_hi svc_lo total_pkts pkt_num : Nat)
    (payload : List Nat) (htot : 256 ≤ total_pkts) :
    build_packet seq svc_hi svc_lo payload total_pkts pkt_num = none := by
  unfold build_packet bytesOf
  rw [if_neg]
  simp only [List.all_cons, List.all_nil, Bool.and_eq_true, decide_eq_true_eq]
  omega

end G2

/-! ## Claim C1 -/

/-- Claim C1: for every sequence number, service byte pair, fragment
counters and payload consisting of bytes, `build_packet` returns exactly
the 8-byte header `(0xAA, 0x21, seq, len(p)+2, totalFragments,
fragmentIndex, svc_hi, svc_lo)` followed by the payload followed by the
CRC-16/CCITT of the payload alone, stored little-endian; the length field
is `len(p) + 2`. -/
theorem C1_build_packet_layout (seq svc_hi svc_lo total_pkts pkt_num : Nat)
    (payload : List Nat)
    (hseq : seq < 256) (hhi : svc_hi < 256) (hlo : svc_lo < 256)
    (htot : total_pkts < 256) (hnum : pkt_num < 256)
    (hlen : payload.length ≤ 253) :
    G2.build_packet seq svc_hi svc_lo payload total_pkts pkt_num =
      some ([0xAA, 0x21, seq, payload.length + 2, total_pkts, pkt_num, svc_hi, svc_lo]
        ++ payload
        ++ [G2.crc16_ccitt payload % 256, G2.crc16_ccitt payload / 256 % 256]) := by
  rw [G2.build_packet_some seq svc_hi svc_lo total_pkts pkt_num payload
    hseq hhi hlo htot hnum hlen,
    G2.and_255_eq_mod, G2.and_255_eq_mod, G2.shiftRight8_eq_div]

/-- Witness for C1 at a concrete input. -/
theorem C1_build_packet_layout_witness :
    G2.build_packet 8 7 0x20 [1, 2, 3] 1 1 =
      some ([0xAA, 0x21, 8, 5, 1, 1, 7, 0x20] ++ [1, 2, 3]
        ++ [G2.crc16_ccitt [1, 2, 3] % 256, G2.crc16_ccitt [1, 2, 3] / 256 % 256]) :=
  C1_build_packet_layout 8 7 0x20 1 1 [1, 2, 3]
    (by decide) (by decide) (by decide) (by decide) (by decide) (by decide)

/-! ## Claim C9 -/

namespace G2

theorem encode_varint_ne_nil (value : Nat) : encode_varint value ≠ [] := by
  rw [encode_varint_unfold]
  split <;> simp

theorem or_128_and_127 (x : Nat) : ((x &&& 0x7F) ||| 0x80) &&& 0x7F = x &&& 0x7F := by
  rw [Nat.and_distrib_right, Nat.and_assoc]
  have h1 : (0x7F : Nat) &&& 0x7F = 0x7F := by decide
  have h2 : (0x80 : Nat) &&& 0x7F = 0 := by decide
  rw [h1, h2, Nat.or_zero]

theorem or_128_and_128 (x : Nat) : ((x &&& 0x7F) ||| 0x80) &&& 0x80 = 0x80 := by
  rw [Nat.and_distrib_right, Nat.and_assoc]
  have h1 : (0x7F : Nat) &&& 0x80 = 0 := by decide
  have h2 : (0x80 : Nat) &&& 0x80 = 0x80 := by decide
  rw [h1, h2, Nat.and_zero, Nat.zero_or]

theorem and_127_and_128 (x : Nat) : (x &&& 0x7F) &&& 0x80 = 0 := by
  rw [Nat.and_assoc]
  have h1 : (0x7F : Nat) &&& 0x80 = 0 := by decide
  rw [h1, Nat.and_zero]

theorem and_127_eq_mod (x : Nat) : x &&& 0x7F = x % 128 := by
  have h := Nat.and_pow_two_sub_one_eq_mod x 7
  norm_num at h
  exact h

theorem shiftRight7_eq_div (x : Nat) : x >>> 7 = x / 128 := by
  have h := Nat.shiftRight_eq_div_pow x 7
  norm_num at h
  exact h

end G2

/-- Claim C9: `encode_varint` round-trips with standard base-128 varint
decoding for every natural number (hence for every u64 and in particular
for 0, 127, 128, 16384 and 2^32-1), and the encoding is well-formed: the
continuation bit `0x80` is set on every byte but the last and clear on the
last byte. -/
theorem C9_varint_roundtrip (value : Nat) :
    G2.decodeVarint (G2.encode_varint value) = value ∧
    (∀ b ∈ (G2.encode_varint value).dropLast, b &&& 0x80 = 0x80) ∧
    (∀ b, (G2.encode_varint value).getLast? = some b → b &&& 0x80 = 0) := by
  induction value using Nat.strong_induction_on with
  | _ value ih =>
    rw [G2.encode_varint_unfold]
    by_cases h : value > 0x7F
    · rw [if_pos h]
      have hlt : value >>> 7 < value := by
        rw [G2.shiftRight7_eq_div]
        exact Nat.div_lt_self (by omega) (by norm_num)
      obtain ⟨ihdec, ihcont, ihlast⟩ := ih (value >>> 7) hlt
      obtain ⟨c, cs, hcs⟩ := List.exists_cons_of_ne_nil (G2.encode_varint_ne_nil (value >>> 7))
      refine ⟨?_, ?_, ?_⟩
      · rw [G2.decodeVarint_cons, G2.or_128_and_127, ihdec, G2.and_127_eq_mod,
          G2.shiftRight7_eq_div, Nat.mod_add_div' value 128]
      · intro b hb
        rw [List.dropLast_cons_of_ne_nil (G2.encode_varint_ne_nil _), List.mem_cons] at hb
        rcases hb with hb | hb
        · subst hb
          exact G2.or_128_and_128 value
        · exact ihcont b hb
      · intro b hb
        rw [hcs, List.getLast?_cons_cons, ← hcs] at hb
        exact ihlast b hb
    · rw [if_neg h]
      refine ⟨?_, by simp, ?_⟩
      · rw [G2.decodeVarint_cons, G2.decodeVarint_nil, Nat.and_assoc]
        have h1 : (0x7F : Nat) &&& 0x7F = 0x7F := by decide
        rw [h1, G2.and_127_eq_mod]
        omega
      · intro b hb
        simp only [List.getLast?_singleton, Option.some.injEq] at hb
        subst hb
        exact G2.and_127_and_128 value

/-! ## CRC-32C (Castagnoli), from `CRC32C_TABLE` / `calc_crc32c` /
`calc_file_check_fields` in the source -/

namespace G2

/-- The 256-entry CRC-32C lookup table, copied literally (including its
mixed hexadecimal/decimal notation) from `CRC32C_TABLE` in the source. -/
def CRC32C_TABLE : List Nat := [
    0, 0x1edc6f41, 0x3db8de82, 0x2364b1c3,
    2071051524, 1705890373, 1187603334, 1477774535,
    4142103048, 3896448329, 3411780746, 3582446539,
    2375206668, 2471405645, 2955549070, 2935387855,
    4078607185, 3989238800, 3466741203, 3497929362,
    2288723541, 2528594196, 3050567895, 2869925782,
    0x5f9e159, 0x1b258e18, 0x38413fdb, 0x269d509a,
    2122865757, 1616130844, 1127252703, 1575808414,
    4176042467, 3862247074, 3310454625, 3683510304,
    2207835367, 2638515110, 3189783141, 2700891428,
    0xe0a23eb, 0x10d64caa, 0x33b2fd69, 0x2d6e9228,
    1971035887, 1806168494, 1220755565, 1444884268,
    0xbf3c2b2, 0x152fadf3, 0x364b1c30, 0x28977371,
    1887600566, 1851658487, 1295687988, 1407635061,
    4245731514, 3821852667, 3232261688, 3732146553,
    2254505406, 2562550527, 3151616828, 2768614525,
    4010728583, 4057117638, 3535143429, 3429526852,
    2491376003, 2325941954, 2848440065, 3072053312,
    0x19eda68f, 0x731c9ce, 0x2455780d, 0x3a89174c,
    1654397835, 2084598986, 1596245257, 1106815560,
    0x1c1447d6, 0x2c82897, 0x21ac9954, 0x3f70f615,
    1734736594, 2042205587, 1524442192, 1140935441,
    3942071774, 4096479903, 3612336988, 3381890077,
    2441511130, 2405101467, 2889768536, 3001168153,
    0x17e78564, 0x93bea25, 0x2a5f5be6, 0x348334a7,
    1821784160, 1917474593, 1362028258, 1341295011,
    3775201132, 4292382765, 3703316974, 3261091503,
    2591375976, 2225679657, 2815270122, 3104961451,
    3841793589, 4196495732, 3645227191, 3348738038,
    2676794161, 2169556080, 2721349043, 3169325810,
    0x121e643d, 0xcc20b7c, 0x2fa6babf, 0x317ad5fe,
    1768937785, 2008266360, 1423378363, 1242261754,
    3233928783, 3726489870, 4252567757, 3819267980,
    3148901195, 2775319562, 2248717769, 2564086408,
    0x3622ac47, 0x28fec306, 0xb9a72c5, 0x15461d84,
    1297289539, 1401912834, 1894502337, 1849139328,
    0x33db4d1e, 0x2d07225f, 0xe63939c, 0x10bffcdd,
    1219162138, 1450614619, 1964125848, 1808679385,
    3308795670, 3689175127, 4169197972, 3864823509,
    3192490514, 2694178131, 2213631120, 2636987345,
    0x38288fac, 0x26f4e0ed, 0x590512e, 0x1b4c3e6f,
    1129919144, 1569021417, 2128735274, 1614644075,
    3469473188, 3491207909, 4084411174, 3987686503,
    3048884384, 2875598817, 2281870882, 2531195235,
    3409057021, 3589176252, 4136290943, 3897992510,
    2957224441, 2929706680, 2382067579, 2468812858,
    0x3dd16ef5, 0x230d01b4, 0x69b077, 0x1eb5df36,
    1184945137, 1484569776, 2065173875, 1707369010,
    0x2fcf0ac8, 0x31136589, 0x1277d44a, 0xcabbb0b,
    1421785036, 1247991949, 1762027854, 2010777103,
    3643568320, 3354402689, 3834949186, 4199072003,
    2724056516, 3162612357, 2682590022, 2168028167,
    3704983961, 3255434968, 3782037275, 4289798234,
    2812554397, 3111666652, 2585588255, 2227215710,
    0x2a36eb91, 0x34ea84d0, 0x178e3513, 0x9525a52,
    1363629717, 1335572948, 1828685847, 1914955606,
    3609613099, 3388619882, 3936259497, 4098024168,
    2891443759, 2995487086, 2448371885, 2402508780,
    0x21c52923, 0x3f194662, 0x1c7df7a1, 0x2a198e0,
    1521783847, 1147730790, 1728858789, 2043684324,
    0x243cc87a, 0x3ae0a73b, 0x198416f8, 0x75879b9,
    1598911870, 1100028479, 1660267516, 2083112125,
    3537875570, 3422805299, 4016532720, 4055565233,
    2846756726, 3077726263, 2484523508, 2328542901]

/-- Table-driven CRC-32C, translated from `calc_crc32c` in the source:
MSB-first, initial value 0, one table lookup per byte. -/
def calc_crc32c (data : List Nat) : Nat :=
  data.foldl
    (fun crc b =>
      ((crc <<< 8) &&& 0xFFFFFFFF) ^^^ CRC32C_TABLE.getD (b ^^^ ((crc >>> 24) &&& 0xFF)) 0)
    0

/-- File check header fields for notifications, translated from
`calc_file_check_fields`. -/
def calc_file_check_fields (data : List Nat) : Nat × Nat × Nat :=
  (data.length * 256,
   (calc_crc32c data <<< 8) &&& 0xFFFFFFFF,
   (calc_crc32c data >>> 24) &&& 0xFF)

/-- One bit-at-a-time round of the non-reflected (MSB-first) Castagnoli
CRC: shift left, and xor in the polynomial `0x1EDC6F41` when the shifted-out
bit was set.  This is the reference convention named by the spec. -/
def crcStep32 (crc : Nat) : Nat :=
  if crc &&& 0x80000000 != 0 then ((crc <<< 1) ^^^ 0x1EDC6F41) &&& 0xFFFFFFFF
  else (crc <<< 1) &&& 0xFFFFFFFF

/-- `k` bit-at-a-time rounds of the MSB-first Castagnoli CRC. -/
def crcIter : Nat → Nat → Nat
  | 0, x => x
  | k + 1, x => crcIter k (crcStep32 x)

/-- Entry `i` of the table generated MSB-first from polynomial
`0x1EDC6F41`: eight bit-rounds applied to `i` placed in the top byte. -/
def tableEntry (i : Nat) : Nat := crcIter 8 (i <<< 24)

/-- Bit-at-a-time reference definition of the non-reflected CRC-32C with
initial value 0: each data byte is xored into the top byte of the running
value, followed by eight bit-rounds. -/
def crc32c_ref (data : List Nat) : Nat :=
  data.foldl (fun crc b => crcIter 8 (crc ^^^ (b <<< 24))) 0

theorem shiftLeft_xor_distrib (x y n : Nat) : (x ^^^ y) <<< n = (x <<< n) ^^^ (y <<< n) := by
  apply Nat.eq_of_testBit_eq
  intro i
  simp [Nat.testBit_shiftLeft, Nat.testBit_xor, Bool.and_xor_distrib_left]

theorem crcStep32_lt (x : Nat) : crcStep32 x < 4294967296 := by
  unfold crcStep32
  split
  · exact lt_of_le_of_lt Nat.and_le_right (by norm_num)
  · exact lt_of_le_of_lt Nat.and_le_right (by norm_num)

theorem crcStep32_xor_low (x y : Nat) (hy : y < 2 ^ 31) :
    crcStep32 (x ^^^ y) = crcStep32 x ^^^ (y <<< 1) := by
  have htop : (x ^^^ y) &&& 0x80000000 = x &&& 0x80000000 := by
    rw [Nat.and_xor_distrib_right]
    have hy31 : y &&& 0x80000000 = 0 := by
      have := Nat.and_two_pow y 31
      rw [Nat.testBit_lt_two_pow hy] at this
      norm_num at this ⊢
      exact this
    rw [hy31, Nat.xor_zero]
  have hshift : (x ^^^ y) <<< 1 = (x <<< 1) ^^^ (y <<< 1) := shiftLeft_xor_distrib x y 1
  have hylt : y <<< 1 < 2 ^ 32 := by
    rw [Nat.shiftLeft_eq]
    norm_num
    omega
  have hymask : (y <<< 1) &&& 0xFFFFFFFF = y <<< 1 := by
    have h := Nat.and_pow_two_sub_one_of_lt_two_pow hylt
    norm_num at h ⊢
    exact h
  unfold crcStep32
  rw [htop]
  split
  · rw [hshift, Nat.xor_assoc ((x : Nat) <<< 1), Nat.xor_comm (y <<< 1), ← Nat.xor_assoc,
      Nat.and_xor_distrib_right, hymask]
  · rw [hshift, Nat.and_xor_distrib_right, hymask]

theorem crcIter_xor_low (k : Nat) (hk : k ≤ 31) :
    ∀ x y : Nat, y < 2 ^ (32 - k) → crcIter k (x ^^^ y) = crcIter k x ^^^ (y <<< k) := by
  induction k with
  | zero =>
    intro x y _
    simp [crcIter]
  | succ k ih =>
    intro x y hy
    have hy31 : y < 2 ^ 31 := by
      have h32 : (2 : Nat) ^ (32 - (k + 1)) ≤ 2 ^ 31 := by
        apply Nat.pow_le_pow_right
        · norm_num
        · omega
      omega
    have hy1 : y <<< 1 < 2 ^ (32 - k) := by
      rw [Nat.shiftLeft_eq]
      have h2 : (2 : Nat) ^ (32 - (k + 1)) * 2 = 2 ^ (32 - k) := by
        rw [← Nat.pow_succ]
        congr 1
        omega
      norm_num
      omega
    show crcIter k (crcStep32 (x ^^^ y)) = crcIter k (crcStep32 x) ^^^ (y <<< (k + 1))
    rw [crcStep32_xor_low x y hy31, ih (by omega) (crcStep32 x) (y <<< 1) hy1,
      ← Nat.shiftLeft_add, Nat.add_comm 1 k]

theorem hi_lo_decomp (x : Nat) : ((x >>> 24) <<< 24) ^^^ (x % 2 ^ 24) = x := by
  apply Nat.eq_of_testBit_eq
  intro i
  simp only [Nat.testBit_xor, Nat.testBit_shiftLeft, Nat.testBit_shiftRight,
    Nat.testBit_mod_two_pow]
  by_cases h : 24 ≤ i
  · have h1 : 24 + (i - 24) = i := by omega
    have h2 : decide (24 ≤ i) = true := by simp [h]
    have h3 : decide (i < 24) = false := by simp; omega
    rw [h1, h2, h3]
    simp
  · have h2 : decide (24 ≤ i) = false := by simp; omega
    have h3 : decide (i < 24) = true := by simp; omega
    rw [h2, h3]
    simp

/-- The literal table from the source is exactly the table generated
MSB-first from the Castagnoli polynomial. -/
theorem table_eq_generated : CRC32C_TABLE = (List.range 256).map tableEntry := by decide

theorem table_getD (i : Nat) (h : i < 256) : CRC32C_TABLE.getD i 0 = tableEntry i := by
  rw [table_eq_generated, List.getD_eq_getElem?_getD, List.getElem?_map, List.getElem?_range h]
  rfl

theorem crcIter_lt (k : Nat) : ∀ x : Nat, crcIter (k + 1) x < 4294967296 := by
  induction k with
  | zero => exact crcStep32_lt
  | succ k ih =>
    intro x
    show crcIter (k + 1) (crcStep32 x) < 4294967296
    exact ih (crcStep32 x)

theorem table_step_eq (crc b : Nat) (hcrc : crc < 4294967296) (hb : b < 256) :
    ((crc <<< 8) &&& 0xFFFFFFFF) ^^^ CRC32C_TABLE.getD (b ^^^ ((crc >>> 24) &&& 0xFF)) 0
      = crcIter 8 (crc ^^^ (b <<< 24)) := by
  have hhi : crc >>> 24 < 256 := by
    rw [Nat.shiftRight_eq_div_pow]
    norm_num
    omega
  have hhimask : (crc >>> 24) &&& 0xFF = crc >>> 24 := by
    have h := Nat.and_pow_two_sub_one_of_lt_two_pow (n := 8) (x := crc >>> 24)
      (by norm_num; exact hhi)
    norm_num at h ⊢
    exact h
  have hlo : crc % 2 ^ 24 < 2 ^ 24 := Nat.mod_lt _ (by norm_num)
  have hidx : b ^^^ (crc >>> 24) < 256 := by
    have h := Nat.xor_lt_two_pow (n := 8) (x := b) (y := crc >>> 24)
      (by norm_num; exact hb) (by norm_num; exact hhi)
    norm_num at h
    exact h
  have hdecomp : crc ^^^ (b <<< 24) = ((b ^^^ (crc >>> 24)) <<< 24) ^^^ (crc % 2 ^ 24) := by
    conv_lhs => rw [← hi_lo_decomp crc]
    rw [shiftLeft_xor_distrib]
    rw [Nat.xor_comm ((crc >>> 24) <<< 24) (crc % 2 ^ 24), Nat.xor_assoc,
      Nat.xor_comm (crc % 2 ^ 24), Nat.xor_comm (crc >>> 24 <<< 24) (b <<< 24)]
  have hmask : (crc <<< 8) &&& 0xFFFFFFFF = (crc % 2 ^ 24) <<< 8 := by
    rw [Nat.shiftLeft_eq, Nat.shiftLeft_eq]
    have h := Nat.and_pow_two_sub_one_eq_mod (crc * 2 ^ 8) 32
    norm_num at h ⊢
    rw [h]
    omega
  rw [hhimask, table_getD _ hidx, hdecomp,
    crcIter_xor_low 8 (by norm_num) _ (crc % 2 ^ 24) (by norm_num; exact hlo),
    hmask, Nat.xor_comm]
  rfl

theorem calc_crc32c_go (data : List Nat) :
    ∀ crc : Nat, crc < 4294967296 → (∀ b ∈ data, b < 256) →
      data.foldl
        (fun crc b =>
          ((crc <<< 8) &&& 0xFFFFFFFF) ^^^ CRC32C_TABLE.getD (b ^^^ ((crc >>> 24) &&& 0xFF)) 0)
        crc
      = data.foldl (fun crc b => crcIter 8 (crc ^^^ (b <<< 24))) crc := by
  induction data with
  | nil =>
    intro crc _ _
    rfl
  | cons b rest ih =>
    intro crc hcrc hall
    simp only [List.foldl_cons]
    rw [table_step_eq crc b hcrc (hall b (by simp))]
    apply ih
    · exact crcIter_lt 7 _
    · intro x hx
      exact hall x (by simp [hx])

end G2

/-! ## Claim C2 -/

/-- Claim C2: the 256-entry lookup table in the source equals the table
generated MSB-first (non-reflected) from polynomial `0x1EDC6F41` with
initial value 0; the table-driven `calc_crc32c` equals the bit-at-a-time
reference definition of that non-reflected CRC on every byte string; and
`calc_file_check_fields` returns exactly
`(len(data)*256, (crc<<8)&0xFFFFFFFF, (crc>>24)&0xFF)`. -/
theorem C2_crc32c_correct :
    G2.CRC32C_TABLE = (List.range 256).map G2.tableEntry ∧
    (∀ data : List Nat, (∀ b ∈ data, b < 256) →
      G2.calc_crc32c data = G2.crc32c_ref data) ∧
    (∀ data : List Nat, G2.calc_file_check_fields data =
      (data.length * 256,
       (G2.calc_crc32c data <<< 8) &&& 0xFFFFFFFF,
       (G2.calc_crc32c data >>> 24) &&& 0xFF)) := by
  refine ⟨G2.table_eq_generated, ?_, fun data => rfl⟩
  intro data h
  exact G2.calc_crc32c_go data 0 (by norm_num) h

/-- Witness for C2 at a concrete byte string. -/
theorem C2_crc32c_correct_witness :
    G2.calc_crc32c [0x31, 0x32, 0x33] = G2.crc32c_ref [0x31, 0x32, 0x33] :=
  C2_crc32c_correct.2.1 [0x31, 0x32, 0x33] (by decide)

/-! ## UTF-8 encoding (Python `str.encode` on the text arguments) -/

namespace G2

/-- Standard UTF-8 encoding of a character sequence, modelling Python's
`str.encode` applied to the text arguments of the frame builders. -/
def utf8Encode (s : List Char) : List Nat :=
  s.flatMap (fun c =>
    let n := c.toNat
    if n < 0x80 then [n]
    else if n < 0x800 then
      [0xC0 ||| (n >>> 6), 0x80 ||| (n &&& 0x3F)]
    else if n < 0x10000 then
      [0xE0 ||| (n >>> 12), 0x80 ||| ((n >>> 6) &&& 0x3F), 0x80 ||| (n &&& 0x3F)]
    else
      [0xF0 ||| (n >>> 18), 0x80 ||| ((n >>> 12) &&& 0x3F),
       0x80 ||| ((n >>> 6) &&& 0x3F), 0x80 ||| (n &&& 0x3F)])

/-! ## Frame builders (from the `build_*` functions in the source) -/

/-- The fixed 106-byte display configuration template of
`build_display_config` (the `bytes.fromhex(...)` literal). -/
def DISPLAY_CONFIG_TEMPLATE : List Nat := [
    0x08, 0x01, 0x12, 0x13, 0x08, 0x02, 0x10, 0x90, 0x4E, 0x1D, 0x00, 0xE0,
    0x94, 0x44, 0x25, 0x00, 0x00, 0x00, 0x00, 0x28, 0x00, 0x30, 0x00, 0x12,
    0x13, 0x08, 0x03, 0x10, 0x0D, 0x0F, 0x1D, 0x00, 0x40, 0x8D, 0x44, 0x25,
    0x00, 0x00, 0x00, 0x00, 0x28, 0x00, 0x30, 0x00, 0x12, 0x12, 0x08, 0x04,
    0x10, 0x00, 0x1D, 0x00, 0x00, 0x88, 0x42, 0x25, 0x00, 0x00, 0x00, 0x00,
    0x28, 0x00, 0x30, 0x00, 0x12, 0x12, 0x08, 0x05, 0x10, 0x00, 0x1D, 0x00,
    0x00, 0x92, 0x42, 0x25, 0x00, 0x00, 0xA2, 0x42, 0x28, 0x00, 0x30, 0x00,
    0x12, 0x12, 0x08, 0x06, 0x10, 0x00, 0x1D, 0x00, 0x00, 0xC6, 0x42, 0x25,
    0x00, 0x00, 0xC4, 0x42, 0x28, 0x00, 0x30, 0x00, 0x18, 0x00]

/-- Service 0x0E-20 display configuration frame, from
`build_display_config`. -/
def build_display_config (seq msg_id : Nat) : Option (List Nat) :=
  let payload := [0x08, 0x02, 0x10] ++ encode_varint msg_id ++ [0x22, 0x6A]
      ++ DISPLAY_CONFIG_TEMPLATE
  build_packet seq 0x0E 0x20 payload 1 1

/-- Service 0x06-20 type=1 teleprompter initialization frame, from
`build_teleprompter_init`.  The inner `bytes([...])` length prefixes always
fit in a byte for the argument ranges the module uses (`total_lines ≤ 15`). -/
def build_teleprompter_init (seq msg_id total_lines : Nat) : Option (List Nat) :=
  let content_height := max 1 ((total_lines * 2665) / 140)
  let display := [0x08, 0x01, 0x10, 0x00, 0x18, 0x00, 0x20, 0x8B, 0x02]
      ++ [0x28] ++ encode_varint content_height
      ++ [0x30, 0xE6, 0x01] ++ [0x38, 0x8E, 0x0A] ++ [0x40, 0x05, 0x48, 0x00]
  let settings := [0x08, 0x01, 0x12, display.length] ++ display
  let payload := [0x08, 0x01, 0x10] ++ encode_varint msg_id ++ [0x1A, settings.length]
      ++ settings
  build_packet seq 0x06 0x20 payload 1 1

/-- Service 0x06-20 type=3 content page frame, from `build_content_page`. -/
def build_content_page (seq msg_id page_num : Nat) (text : List Char) : Option (List Nat) :=
  let text_bytes := utf8Encode ([Char.ofNat 10] ++ text)
  let inner := [0x08] ++ encode_varint page_num ++ [0x10, 0x0A]
      ++ [0x1A] ++ encode_varint text_bytes.length ++ text_bytes
  let content := [0x2A] ++ encode_varint inner.length ++ inner
  let payload := [0x08, 0x03, 0x10] ++ encode_varint msg_id ++ content
  build_packet seq 0x06 0x20 payload 1 1

/-- Service 0x80-00 type=14 sync/trigger frame, from `build_sync`. -/
def build_sync (seq msg_id : Nat) : Option (List Nat) :=
  build_packet seq 0x80 0x00 ([0x08, 0x0E, 0x10] ++ encode_varint msg_id ++ [0x6A, 0x00]) 1 1

/-- Service 0x07-20 CTRL command entering Even-AI mode, from
`build_evenai_ctrl_enter`. -/
def build_evenai_ctrl_enter (seq magic : Nat) : Option (List Nat) :=
  build_packet seq 0x07 0x20 [0x08, 0x01, 0x10, magic &&& 0xFF, 0x1A, 0x02, 0x08, 0x02] 1 1

/-- The nested `replyInfo` sub-message of `build_evenai_reply`: flags, then
the UTF-8 text length-prefixed by a varint. -/
def evenaiReplyInfo (stream_mode : Bool) (text_bytes : List Nat) : List Nat :=
  [0x08, 0x00, 0x10, if stream_mode then 0x01 else 0x00, 0x18, 0x00, 0x22]
    ++ encode_varint text_bytes.length ++ text_bytes

/-- The payload of the REPLY frame of `build_evenai_reply`: command id 5,
masked magic byte, then the varint-length-prefixed `replyInfo`. -/
def evenaiReplyPayload (magic : Nat) (stream_mode : Bool) (text : List Char) : List Nat :=
  let replyinfo := evenaiReplyInfo stream_mode (utf8Encode text)
  [0x08, 0x05, 0x10, magic &&& 0xFF, 0x3A] ++ encode_varint replyinfo.length ++ replyinfo

/-- Service 0x07-20 REPLY frame, from `build_evenai_reply`. -/
def build_evenai_reply (seq magic : Nat) (text : List Char) (stream_mode : Bool) :
    Option (List Nat) :=
  build_packet seq 0x07 0x20 (evenaiReplyPayload magic stream_mode text) 1 1

/-! ## Chunking (the `[data[i:i+n] for i in range(0, len(data), n)]` idiom) -/

/-- Recursion core of `chunksOf`, with structural fuel bounding the loop
(the caller passes the list length, which always suffices). -/
def chunksOfGo {α : Type} (n : Nat) : Nat → List α → List (List α)
  | _, [] => []
  | 0, _ :: _ => []
  | fuel + 1, x :: xs =>
      if n = 0 then []
      else ((x :: xs).take n) :: chunksOfGo n fuel ((x :: xs).drop n)

/-- Split a list into consecutive chunks of `n` elements (the last chunk may
be shorter), the `[data[i:i+n] for i in range(0, len(data), n)]` idiom.  For
`n = 0` Python's `range(0, len, 0)` raises; callers guard that case, and
this function returns `[]` there to stay total. -/
def chunksOf {α : Type} (n : Nat) (l : List α) : List (List α) :=
  chunksOfGo n l.length l

theorem chunksOfGo_fuel_irrel {α : Type} (n : Nat) :
    ∀ (fuel₁ : Nat) (fuel₂ : Nat) (l : List α), l.length ≤ fuel₁ → l.length ≤ fuel₂ →
      chunksOfGo n fuel₁ l = chunksOfGo n fuel₂ l := by
  intro fuel₁
  induction fuel₁ with
  | zero =>
      intro fuel₂ l h1 _
      have hl : l = [] := List.length_eq_zero.mp (by omega)
      subst hl
      cases fuel₂ <;> rfl
  | succ fuel₁ ih =>
      intro fuel₂ l h1 h2
      cases l with
      | nil => cases fuel₂ <;> rfl
      | cons x xs =>
          cases fuel₂ with
          | zero => simp at h2
          | succ fuel₂ =>
              show (if n = 0 then [] else _) = (if n = 0 then [] else _)
              by_cases hn : n = 0
              · rw [if_pos hn, if_pos hn]
              · rw [if_neg hn, if_neg hn]
                have hd : ((x :: xs).drop n).length ≤ fuel₁ := by
                  rw [List.length_drop]
                  simp only [List.length_cons] at h1 ⊢
                  omega
                have hd2 : ((x :: xs).drop n).length ≤ fuel₂ := by
                  rw [List.length_drop]
                  simp only [List.length_cons] at h2 ⊢
                  omega
                rw [ih fuel₂ ((x :: xs).drop n) hd hd2]

/-- The loop equation of `chunksOf`, with the fuel hidden. -/
theorem chunksOf_unfold {α : Type} (n : Nat) (l : List α) :
    chunksOf n l =
      if l.isEmpty ∨ n = 0 then [] else l.take n :: chunksOf n (l.drop n) := by
  show chunksOfGo n l.length l = _
  cases l with
  | nil =>
      rw [if_pos (Or.inl List.isEmpty_nil)]
      rfl
  | cons x xs =>
      by_cases hn : n = 0
      · rw [if_pos (Or.inr hn)]
        show (if n = 0 then [] else _) = []
        rw [if_pos hn]
      · rw [if_neg (by simp [hn])]
        show (if n = 0 then [] else _) = _
        rw [if_neg hn]
        have hd : ((x :: xs).drop n).length ≤ xs.length := by
          rw [List.length_drop]
          simp only [List.length_cons]
          omega
        rw [chunksOfGo_fuel_irrel n xs.length ((x :: xs).drop n).length
          ((x :: xs).drop n) hd le_rfl]
        rfl

theorem chunksOf_nil {α : Type} (n : Nat) : chunksOf n ([] : List α) = [] := rfl

theorem chunksOf_cons {α : Type} (n : Nat) (l : List α) (hl : l ≠ []) (hn : n ≠ 0) :
    chunksOf n l = l.take n :: chunksOf n (l.drop n) := by
  rw [chunksOf_unfold, if_neg]
  simp [hl, hn]

end G2

/-! ## Teleprompter text formatting (from `format_teleprompter_text`) -/

namespace G2

/-- Python whitespace predicate used by `str.split()` / `str.strip()`. -/
def isPySpace (c : Char) : Bool :=
  c == ' ' || c == '\t' || c == '\n' || c == '\r' || c == '\x0b' || c == '\x0c'

/-- Python `text.replace(twoCharBackslashN, newline)`: left-to-right,
non-overlapping replacement of the two-character sequence backslash-n. -/
def replaceBsN : List Char → List Char
  | [] => []
  | '\\' :: 'n' :: rest => '\n' :: replaceBsN rest
  | c :: rest => c :: replaceBsN rest

/-- Python `text.split(newline)`: always returns at least one part. -/
def splitOnNl : List Char → List (List Char)
  | [] => [[]]
  | c :: rest =>
      let ps := splitOnNl rest
      if c = '\n' then [] :: ps
      else (c :: ps.headD []) :: ps.tail

/-- Python `s.strip()`: drop leading and trailing whitespace. -/
def pyStrip (l : List Char) : List Char :=
  ((l.dropWhile isPySpace).reverse.dropWhile isPySpace).reverse

/-- Recursion core of `pySplitWs`, with structural fuel bounding the loop
(the caller passes the list length, which always suffices). -/
def pySplitWsGo : Nat → List Char → List (List Char)
  | 0, _ => []
  | fuel + 1, l =>
      match l.dropWhile isPySpace with
      | [] => []
      | c :: rest =>
          (c :: rest.takeWhile (fun x => !isPySpace x))
            :: pySplitWsGo fuel (rest.dropWhile (fun x => !isPySpace x))

/-- Python `s.split()` with no argument: maximal runs of non-whitespace. -/
def pySplitWs (l : List Char) : List (List Char) := pySplitWsGo l.length l

theorem pySplitWsGo_succ (fuel : Nat) (l : List Char) :
    pySplitWsGo (fuel + 1) l =
      match l.dropWhile isPySpace with
      | [] => []
      | c :: rest =>
          (c :: rest.takeWhile (fun x => !isPySpace x))
            :: pySplitWsGo fuel (rest.dropWhile (fun x => !isPySpace x)) := rfl

theorem pySplitWsGo_fuel_irrel :
    ∀ fuel₁ fuel₂ : Nat, ∀ l : List Char, l.length ≤ fuel₁ → l.length ≤ fuel₂ →
      pySplitWsGo fuel₁ l = pySplitWsGo fuel₂ l := by
  intro fuel₁
  induction fuel₁ with
  | zero =>
      intro fuel₂ l h1 _
      have hl : l = [] := List.length_eq_zero.mp (by omega)
      subst hl
      cases fuel₂ <;> rfl
  | succ fuel₁ ih =>
      intro fuel₂ l h1 h2
      cases fuel₂ with
      | zero =>
          have hl : l = [] := List.length_eq_zero.mp (by omega)
          subst hl
          rfl
      | succ fuel₂ =>
          rw [pySplitWsGo_succ, pySplitWsGo_succ]
          have hdw : (l.dropWhile isPySpace).length ≤ l.length :=
            (List.dropWhile_sublist isPySpace).length_le
          cases hd : l.dropWhile isPySpace with
          | nil => rfl
          | cons c rest =>
              rw [hd] at hdw
              simp only [List.length_cons] at hdw
              have hr : (rest.dropWhile (fun x => !isPySpace x)).length ≤ rest.length :=
                (List.dropWhile_sublist _).length_le
              simp only [hd]
              rw [ih fuel₂ (rest.dropWhile (fun x => !isPySpace x))
                (by omega) (by omega)]

/-- The loop equation of `pySplitWs`, with the fuel hidden. -/
theorem pySplitWs_unfold (l : List Char) :
    pySplitWs l =
      match l.dropWhile isPySpace with
      | [] => []
      | c :: rest =>
          (c :: rest.takeWhile (fun x => !isPySpace x))
            :: pySplitWs (rest.dropWhile (fun x => !isPySpace x)) := by
  show pySplitWsGo l.length l = _
  cases l with
  | nil => rfl
  | cons x xs =>
      rw [show (x :: xs).length = xs.length + 1 from rfl, pySplitWsGo_succ]
      have hdw : ((x :: xs).dropWhile isPySpace).length ≤ xs.length + 1 := by
        have h := (List.dropWhile_sublist (l := x :: xs) isPySpace).length_le
        simpa using h
      cases hd : (x :: xs).dropWhile isPySpace with
      | nil => rfl
      | cons c rest =>
          rw [hd] at hdw
          simp only [List.length_cons] at hdw
          have hr : (rest.dropWhile (fun y => !isPySpace y)).length ≤ rest.length :=
            (List.dropWhile_sublist _).length_le
          simp only [hd]
          rw [pySplitWsGo_fuel_irrel xs.length
            (rest.dropWhile (fun y => !isPySpace y)).length
            (rest.dropWhile (fun y => !isPySpace y)) (by omega) le_rfl]
          rfl

/-- The word-wrapping loop of `format_teleprompter_text`: returns the list
of wrapped lines emitted so far and the final value of `current`. -/
def wrapWords (cpl : Nat) : List (List Char) → List Char → List (List Char) × List Char
  | [], current => ([], current)
  | w :: ws, current =>
      if current.length + w.length + 1 > cpl then
        let rest := wrapWords cpl ws (w ++ [' '])
        ((if current.isEmpty then [] else [pyStrip current]) ++ rest.1, rest.2)
      else
        wrapWords cpl ws (current ++ w ++ [' '])

/-- Wrapping of one input line by `format_teleprompter_text`: a blank line
yields one empty wrapped line, otherwise the word-wrap loop runs and the
final `current` is appended when its strip is non-empty. -/
def wrapOneLine (cpl : Nat) (line : List Char) : List (List Char) :=
  if (pyStrip line).isEmpty then [[]]
  else
    let r := wrapWords cpl (pySplitWs line) []
    r.1 ++ (if (pyStrip r.2).isEmpty then [] else [pyStrip r.2])

/-- Python `newline.join(lines)`. -/
def nlJoin : List (List Char) → List Char
  | [] => []
  | [l] => l
  | l :: ls => l ++ '\n' :: nlJoin ls

/-- One page string: the joined page lines followed by a space and a
newline (the `+ trailingSpaceNewline` in the source). -/
def pageString (ls : List (List Char)) : List Char := nlJoin ls ++ [' ', '\n']

/-- Format text into pages, translated from `format_teleprompter_text`:
word-wrap each line, pad the wrapped lines to at least `lines_per_page`,
group into pages of exactly `lines_per_page` lines (padding the last
group), and pad to at least 14 pages.  Returns `none` for
`lines_per_page = 0`, where Python's `range(0, len, 0)` raises
`ValueError`. -/
def format_teleprompter_text (text : List Char) (chars_per_line lines_per_page : Nat) :
    Option (List (List Char)) :=
  let text1 := replaceBsN text
  let wrapped0 := (splitOnNl text1).flatMap (wrapOneLine chars_per_line)
  let wrapped1 := if wrapped0.isEmpty then [text1] else wrapped0
  let wrapped2 := wrapped1 ++ List.replicate (lines_per_page - wrapped1.length) [' ']
  if lines_per_page = 0 then none
  else
    let pages := (chunksOf lines_per_page wrapped2).map
      (fun g => pageString (g ++ List.replicate (lines_per_page - g.length) [' ']))
    some (pages ++ List.replicate (14 - pages.length)
      (pageString (List.replicate lines_per_page [' '])))

/-- Python `str.splitlines()` restricted to newline-only strings (the only
boundary character occurring in the produced pages): the parts of the
string between newlines, not counting a final empty part after a trailing
newline.  Used to state the per-page line count. -/
def pySplitlines (s : List Char) : List (List Char) :=
  if (splitOnNl s).getLast? = some [] then (splitOnNl s).dropLast else splitOnNl s

/-! ## Session state (the counter/latch fields of `G2Output`) -/

/-- The mutable per-session fields of `G2Output` that the claims are
about: the connected flag, the `seq` and `msgId` counters, and the two
mode-entry latches, with their `__init__` initial values. -/
structure G2State where
  connected : Bool
  seq : Nat
  msgId : Nat
  evenai_initialized : Bool
  teleprompter_initialized : Bool
deriving Repr, DecidableEq

/-- The state set up by `G2Output.__init__`. -/
def initState : G2State :=
  { connected := false, seq := 0x08, msgId := 0x14,
    evenai_initialized := false, teleprompter_initialized := false }

/-- Run a list of frame builders in sequence, mirroring the write loops of
the send methods: each builder receives the current `seq`/`msgId`; on
success the frame is written and both counters are incremented, and a
failed build (Python `ValueError`) aborts the remainder.  The trace
records the `seq` passed to each attempted builder together with the
build result. -/
def runFrames (s : G2State) :
    List (Nat → Nat → Option (List Nat)) → G2State × List (Nat × Option (List Nat))
  | [] => (s, [])
  | b :: rest =>
      match b s.seq s.msgId with
      | none => (s, [(s.seq, none)])
      | some f =>
          let s1 := { s with seq := s.seq + 1, msgId := s.msgId + 1 }
          let r := runFrames s1 rest
          (r.1, (s.seq, some f) :: r.2)

/-- The end-of-call counter wrap of the send methods: `seq` above `0xFF`
resets to `0x08`, `msgId` above `0xFF` resets to `0x14`. -/
def wrapCounters (s : G2State) : G2State :=
  { s with seq := if s.seq > 0xFF then 0x08 else s.seq,
           msgId := if s.msgId > 0xFF then 0x14 else s.msgId }

/-- `G2Output.send_teleprompter`, modelled on the counter state: formats
the text with `lines_per_page = 5`, then writes display-config,
teleprompter-init, the first `min 3 (len pages)` content pages, and a sync
frame, incrementing both counters after each write; the wrap check runs
only when no build raised.  `clientOk` models the
`client and client.is_connected` guard. -/
def send_teleprompter (clientOk : Bool) (s : G2State) (text : List Char) :
    G2State × List (Nat × Option (List Nat)) :=
  if !clientOk then (s, [])
  else
    let pages := (format_teleprompter_text text 25 5).getD []
    let total_lines := min 15 ((splitOnNl text).length + 5)
    let builders :=
      [fun sq m => build_display_config sq m,
       fun sq m => build_teleprompter_init sq m total_lines]
      ++ (List.range (min 3 pages.length)).map
           (fun i => fun sq m => build_content_page sq m i (pages.getD i []))
      ++ [fun sq m => build_sync sq m]
    let r := runFrames s builders
    if r.2.any (fun p => p.2.isNone) then r
    else (wrapCounters r.1, r.2)

/-- `G2Output.send_evenai`, modelled on the counter state: a CTRL-ENTER
frame on first use only (setting the latch after the write), then a REPLY
frame, incrementing both counters after each write, with the wrap check at
the end of a fully successful call. -/
def send_evenai (clientOk : Bool) (s : G2State) (text : List Char) :
    G2State × List (Nat × Option (List Nat)) :=
  if !clientOk then (s, [])
  else if !s.evenai_initialized then
    match build_evenai_ctrl_enter s.seq s.msgId with
    | none => (s, [(s.seq, none)])
    | some f =>
        let s1 := { s with seq := s.seq + 1, msgId := s.msgId + 1, evenai_initialized := true }
        match build_evenai_reply s1.seq s1.msgId text true with
        | none => (s1, [(s.seq, some f), (s1.seq, none)])
        | some g =>
            let s2 := { s1 with seq := s1.seq + 1, msgId := s1.msgId + 1 }
            (wrapCounters s2, [(s.seq, some f), (s1.seq, some g)])
  else
    match build_evenai_reply s.seq s.msgId text true with
    | none => (s, [(s.seq, none)])
    | some g =>
        let s1 := { s with seq := s.seq + 1, msgId := s.msgId + 1 }
        (wrapCounters s1, [(s.seq, some g)])

/-- `G2Output.disconnect`: tears down the BLE clients and clears only the
connected flag; the counters and latches are left untouched. -/
def disconnect (s : G2State) : G2State := { s with connected := false }

/-- A successful `G2Output.connect`: returns immediately when already
connected, otherwise scans/authenticates and sets the connected flag; no
other session field is assigned anywhere in `connect`. -/
def connectOk (s : G2State) : G2State :=
  if s.connected then s else { s with connected := true }

end G2

/-! ## Notification transfer (from `G2Output.send_notification`) -/

namespace G2

/-- Which eye a characteristic write goes to. -/
inductive Eye
  | left
  | right
deriving Repr, DecidableEq

/-- The four GATT characteristics of the module (`CHAR_WRITE`,
`CHAR_NOTIFY`, `CHAR_NOTIF_WRITE`, `CHAR_NOTIF_NOTIFY`). -/
inductive GChar
  | writeChar
  | notifyChar
  | notifWriteChar
  | notifNotifyChar
deriving Repr, DecidableEq

/-- The fixed heartbeat frame written to the other eye at the end of
`send_notification` (the `bytes.fromhex` literal in the source). -/
def HEARTBEAT_FRAME : List Nat :=
  [0xAA, 0x21, 0x0E, 0x06, 0x01, 0x01, 0x80, 0x20,
   0x08, 0x0E, 0x10, 0x6B, 0x6A, 0x00, 0xE1, 0x74]

/-- The ASCII bytes of the fixed filename sent in the FILE_CHECK frame. -/
def NOTIFY_FILENAME : List Nat :=
  [0x75, 0x73, 0x65, 0x72, 0x2F, 0x6E, 0x6F, 0x74, 0x69, 0x66, 0x79, 0x5F,
   0x77, 0x68, 0x69, 0x74, 0x65, 0x6C, 0x69, 0x73, 0x74, 0x2E, 0x6A, 0x73,
   0x6F, 0x6E]

/-- Python `struct.pack(u32le, n)`: four little-endian bytes, raising for
values that do not fit in 32 bits. -/
def pack32le (n : Nat) : Option (List Nat) :=
  if n < 4294967296 then
    some [n % 256, n / 256 % 256, n / 65536 % 256, n / 16777216 % 256]
  else none

/-- The FILE_CHECK payload of `send_notification`: marker `0x100`, size
field, checksum field, extra byte, and the 80-byte zero-padded filename. -/
def fileCheckPayload (json : List Nat) : Option (List Nat) :=
  match pack32le 0x100, pack32le (calc_file_check_fields json).1,
      pack32le (calc_file_check_fields json).2.1 with
  | some a, some b, some c =>
      some (a ++ b ++ c ++ [(calc_file_check_fields json).2.2]
        ++ NOTIFY_FILENAME ++ List.replicate (80 - NOTIFY_FILENAME.length) 0)
  | _, _, _ => none

/-- The DATA-frame loop of `send_notification`: one frame per chunk on
service `0xC5, 0x00`, with `total_pkts` the chunk count and `pkt_num` the
1-based chunk index; a failed frame build (Python `ValueError`) aborts the
transfer. -/
def buildDataFrames (total : Nat) : Nat → List (List Nat) → Option (List (List Nat))
  | _, [] => some []
  | i, c :: cs =>
      match build_packet 0x49 0xC5 0x00 c total (i + 1) with
      | none => none
      | some f =>
          match buildDataFrames total (i + 1) cs with
          | none => none
          | some rest => some (f :: rest)

/-- The DATA stage of `send_notification` applied to the serialized JSON
bytes: split into 234-byte chunks and build one DATA frame per chunk. -/
def notifDataFrames (json : List Nat) : Option (List (List Nat)) :=
  let chunks := chunksOf 234 json
  buildDataFrames chunks.length 0 chunks

/-- `G2Output.send_notification`, modelled from the serialized JSON bytes
onward (`build_notification_json` embeds the wall-clock time, so the JSON
byte string is treated as the input).  `ready` models the
`_connected and _right_client and _left_client` guard.  The result is the
ordered list of characteristic writes; `none` models a transfer aborted by
a raised exception inside a frame build, in which case the heartbeat is
never written. -/
def send_notification (ready : Bool) (json : List Nat) :
    Option (List (Eye × GChar × List Nat)) :=
  if !ready then some []
  else
    match fileCheckPayload json with
    | none => none
    | some fc =>
      match build_packet 0x10 0xC4 0x00 fc 1 1 with
      | none => none
      | some fcFrame =>
        match build_packet 0x49 0xC4 0x00 [0x01] 1 1 with
        | none => none
        | some startFrame =>
          match notifDataFrames json with
          | none => none
          | some dataFrames =>
            match build_packet 0xDA 0xC4 0x00 [0x02] 1 1 with
            | none => none
            | some endFrame =>
              some ([(Eye.right, GChar.notifWriteChar, fcFrame),
                     (Eye.right, GChar.notifWriteChar, startFrame)]
                ++ dataFrames.map (fun f => (Eye.right, GChar.notifWriteChar, f))
                ++ [(Eye.right, GChar.notifWriteChar, endFrame),
                    (Eye.left, GChar.writeChar, HEARTBEAT_FRAME)])

end G2

/-! ## Chunking lemmas -/

namespace G2

theorem chunksOf_length {α : Type} (n : Nat) (hn : n ≠ 0) (l : List α) :
    (chunksOf n l).length = (l.length + (n - 1)) / n := by
  suffices h : ∀ (N : Nat) (l : List α), l.length ≤ N →
      (chunksOf n l).length = (l.length + (n - 1)) / n from h l.length l le_rfl
  intro N
  induction N with
  | zero =>
      intro l hl
      have hnil : l = [] := List.length_eq_zero.mp (by omega)
      subst hnil
      rw [chunksOf_nil]
      simp only [List.length_nil, Nat.zero_add]
      rw [Nat.div_eq_of_lt (by omega)]
  | succ N ih =>
      intro l hl
      rcases eq_or_ne l [] with rfl | hne
      · rw [chunksOf_nil]
        simp only [List.length_nil, Nat.zero_add]
        rw [Nat.div_eq_of_lt (by omega)]
      · rw [chunksOf_cons n l hne hn]
        have hpos : 0 < l.length := List.length_pos.mpr hne
        have hdl : (l.drop n).length ≤ N := by
          rw [List.length_drop]
          omega
        simp only [List.length_cons, ih (l.drop n) hdl, List.length_drop]
        rcases le_or_lt l.length n with hc | hc
        · rw [Nat.sub_eq_zero_of_le hc, Nat.zero_add, Nat.div_eq_of_lt (by omega)]
          have h1 : (l.length + (n - 1)) / n = 1 := by
            apply Nat.div_eq_of_lt_le
            · omega
            · omega
          omega
        · rw [show l.length - n + (n - 1) = l.length - 1 by omega,
            show l.length + (n - 1) = (l.length - 1) + n by omega,
            Nat.add_div_right _ (by omega)]

theorem chunksOf_flatten {α : Type} (n : Nat) (hn : n ≠ 0) (l : List α) :
    (chunksOf n l).flatten = l := by
  suffices h : ∀ (N : Nat) (l : List α), l.length ≤ N →
      (chunksOf n l).flatten = l from h l.length l le_rfl
  intro N
  induction N with
  | zero =>
      intro l hl
      have hnil : l = [] := List.length_eq_zero.mp (by omega)
      subst hnil
      rfl
  | succ N ih =>
      intro l hl
      rcases eq_or_ne l [] with rfl | hne
      · rfl
      · rw [chunksOf_cons n l hne hn]
        have hpos : 0 < l.length := List.length_pos.mpr hne
        have hdl : (l.drop n).length ≤ N := by
          rw [List.length_drop]
          omega
        simp only [List.flatten_cons, ih (l.drop n) hdl]
        exact List.take_append_drop n l

theorem chunksOf_mem_length {α : Type} (n : Nat) (l : List α) :
    ∀ c ∈ chunksOf n l, c.length ≤ n := by
  suffices h : ∀ (N : Nat) (l : List α), l.length ≤ N →
      ∀ c ∈ chunksOf n l, c.length ≤ n from h l.length l le_rfl
  intro N
  induction N with
  | zero =>
      intro l hl c hc
      have hnil : l = [] := List.length_eq_zero.mp (by omega)
      subst hnil
      rw [chunksOf_nil] at hc
      simp at hc
  | succ N ih =>
      intro l hl c hc
      rcases eq_or_ne l [] with rfl | hne
      · rw [chunksOf_nil] at hc
        simp at hc
      · rcases eq_or_ne n 0 with rfl | hn
        · rw [chunksOf_unfold, if_pos (Or.inr rfl)] at hc
          simp at hc
        · rw [chunksOf_cons n l hne hn] at hc
          have hpos : 0 < l.length := List.length_pos.mpr hne
          have hdl : (l.drop n).length ≤ N := by
            rw [List.length_drop]
            omega
          rcases List.mem_cons.mp hc with rfl | hmem
          · rw [List.length_take]
            omega
          · exact ih (l.drop n) hdl c hmem

theorem chunksOf_mem_ne_nil {α : Type} (n : Nat) (l : List α) :
    ∀ c ∈ chunksOf n l, c ≠ [] := by
  suffices h : ∀ (N : Nat) (l : List α), l.length ≤ N →
      ∀ c ∈ chunksOf n l, c ≠ [] from h l.length l le_rfl
  intro N
  induction N with
  | zero =>
      intro l hl c hc
      have hnil : l = [] := List.length_eq_zero.mp (by omega)
      subst hnil
      rw [chunksOf_nil] at hc
      simp at hc
  | succ N ih =>
      intro l hl c hc
      rcases eq_or_ne l [] with rfl | hne
      · rw [chunksOf_nil] at hc
        simp at hc
      · rcases eq_or_ne n 0 with rfl | hn
        · rw [chunksOf_unfold, if_pos (Or.inr rfl)] at hc
          simp at hc
        · rw [chunksOf_cons n l hne hn] at hc
          have hpos : 0 < l.length := List.length_pos.mpr hne
          have hdl : (l.drop n).length ≤ N := by
            rw [List.length_drop]
            omega
          rcases List.mem_cons.mp hc with rfl | hmem
          · intro hcon
            have hlen0 := congrArg List.length hcon
            rw [List.length_take] at hlen0
            simp only [List.length_nil] at hlen0
            omega
          · exact ih (l.drop n) hdl c hmem

/-- The DATA-frame loop succeeds and produces one fully-specified frame
per chunk (1-based indices from `i + 1`) when every chunk is short enough
and the counts fit in a byte. -/
theorem buildDataFrames_eq (total : Nat) (htot : total < 256) :
    ∀ (chunks : List (List Nat)) (i : Nat),
      (∀ c ∈ chunks, c.length ≤ 234) → i + chunks.length ≤ 255 →
      buildDataFrames total i chunks =
        some (List.zipWith
          (fun j c =>
            [0xAA, 0x21, 0x49, c.length + 2, total, j, 0xC5, 0x00]
              ++ c ++ [crc16_ccitt c &&& 0xFF, (crc16_ccitt c >>> 8) &&& 0xFF])
          (List.range' (i + 1) chunks.length) chunks) := by
  intro chunks
  induction chunks with
  | nil =>
      intro i _ _
      rfl
  | cons c cs ih =>
      intro i h1 hcap
      have hc1 : c.length ≤ 234 := h1 c (by simp)
      have hbuild := build_packet_some 0x49 0xC5 0x00 total (i + 1) c
        (by norm_num) (by norm_num) (by norm_num) htot
        (by simp only [List.length_cons] at hcap; omega) (by omega)
      show (match build_packet 0x49 0xC5 0x00 c total (i + 1) with
        | none => none
        | some f =>
            match buildDataFrames total (i + 1) cs with
            | none => none
            | some rest => some (f :: rest)) = _
      rw [hbuild, ih (i + 1) (fun x hx => h1 x (by simp [hx]))
        (by simp only [List.length_cons] at hcap; omega)]
      simp only [List.length_cons, List.range'_succ, List.zipWith_cons_cons]

theorem utf8Encode_cons_ascii (c : Char) (s : List Char) (h : c.toNat < 128) :
    utf8Encode (c :: s) = c.toNat :: utf8Encode s := by
  unfold utf8Encode
  rw [List.flatMap_cons]
  simp [h]

theorem utf8Encode_replicate_ascii (n : Nat) (c : Char) (h : c.toNat < 128) :
    utf8Encode (List.replicate n c) = List.replicate n c.toNat := by
  induction n with
  | zero => rfl
  | succ n ih =>
      rw [List.replicate_succ, utf8Encode_cons_ascii c _ h, ih, List.replicate_succ]

theorem encode_varint_len1 (v : Nat) (h : v < 128) : (encode_varint v).length = 1 := by
  rw [encode_varint_unfold, if_neg (by omega)]
  rfl

theorem encode_varint_len2 (v : Nat) (h1 : 128 ≤ v) (h2 : v < 16384) :
    (encode_varint v).length = 2 := by
  rw [encode_varint_unfold, if_pos (by omega), List.length_cons,
    encode_varint_len1 (v >>> 7) (by rw [shiftRight7_eq_div]; omega)]

end G2

/-! ## Claim C10 -/

/-- Claim C10 (amended): `build_packet` is total exactly for payloads of
at most 253 bytes: with in-range header bytes it succeeds for
`len(p) ≤ 253` and raises (`none`) for `len(p) > 253`; the notification
DATA chunks are always at most 234 bytes.  (The original claim that every
in-repo caller satisfies the precondition is refuted separately: an
Even-AI reply for long text passes a payload above 253 bytes.) -/
theorem C10_build_packet_totality (seq svc_hi svc_lo total_pkts pkt_num : Nat)
    (payload : List Nat)
    (hseq : seq < 256) (hhi : svc_hi < 256) (hlo : svc_lo < 256)
    (htot : total_pkts < 256) (hnum : pkt_num < 256) :
    (payload.length ≤ 253 →
      (G2.build_packet seq svc_hi svc_lo payload total_pkts pkt_num).isSome) ∧
    (payload.length > 253 →
      G2.build_packet seq svc_hi svc_lo payload total_pkts pkt_num = none) ∧
    (∀ json : List Nat, ∀ c ∈ G2.chunksOf 234 json, c.length ≤ 234) := by
  refine ⟨?_, ?_, ?_⟩
  · intro hlen
    rw [G2.build_packet_some seq svc_hi svc_lo total_pkts pkt_num payload
      hseq hhi hlo htot hnum hlen]
    rfl
  · intro hlen
    exact G2.build_packet_none_of_long seq svc_hi svc_lo total_pkts pkt_num payload hlen
  · intro json c hc
    exact G2.chunksOf_mem_length 234 json c hc

/-- Witness for C10 at a concrete input. -/
theorem C10_build_packet_totality_witness :
    (([1, 2, 3] : List Nat).length ≤ 253 →
      (G2.build_packet 8 7 0x20 [1, 2, 3] 1 1).isSome) ∧
    (([1, 2, 3] : List Nat).length > 253 →
      G2.build_packet 8 7 0x20 [1, 2, 3] 1 1 = none) ∧
    (∀ json : List Nat, ∀ c ∈ G2.chunksOf 234 json, c.length ≤ 234) :=
  C10_build_packet_totality 8 7 0x20 1 1 [1, 2, 3]
    (by decide) (by decide) (by decide) (by decide) (by decide)

/-- Counterexample to C10 as stated: the in-repo caller `send_evenai`
passes the Even-AI REPLY payload to `build_packet`, and for a 300-character
text that payload is 316 bytes long, exceeding both 234 and 253, so the
frame build raises — the failure branch is reachable from protocol
traffic. -/
theorem C10_build_packet_totality_counterexample :
    (G2.evenaiReplyPayload 20 true (List.replicate 300 'a')).length = 316 ∧
    G2.build_evenai_reply 8 20 (List.replicate 300 'a') true = none := by
  have htb : G2.utf8Encode (List.replicate 300 'a') = List.replicate 300 97 := by
    have h := G2.utf8Encode_replicate_ascii 300 'a' (by decide)
    simpa using h
  have hri : (G2.evenaiReplyInfo true (List.replicate 300 97)).length = 309 := by
    simp only [G2.evenaiReplyInfo, List.length_append, List.length_cons, List.length_nil,
      List.length_replicate, G2.encode_varint_len2 300 (by norm_num) (by norm_num)]
  have hpl : (G2.evenaiReplyPayload 20 true (List.replicate 300 'a')).length = 316 := by
    unfold G2.evenaiReplyPayload
    rw [htb]
    simp only [List.length_append, List.length_cons, List.length_nil, hri,
      G2.encode_varint_len2 309 (by norm_num) (by norm_num)]
  refine ⟨hpl, ?_⟩
  show G2.build_packet 8 0x07 0x20
    (G2.evenaiReplyPayload 20 true (List.replicate 300 'a')) 1 1 = none
  apply G2.build_packet_none_of_long
  rw [hpl]
  norm_num

/-! ## Claim C7 -/

/-- Claim C7 (amended): for a JSON payload of length `L ≥ 1` whose chunk
count `ceil(L/234)` fits in a byte, the notification DATA stage emits
exactly `ceil(L/234)` frames, one per 234-byte chunk, each frame carrying
`totalFragments = ceil(L/234)` (header byte 4) and ascending
`fragmentIndex` 1..N (header byte 5), each chunk at most 234 bytes, and
the chunks concatenate back to the original bytes.  (For larger payloads
the fragment-count byte overflows and the frame build raises; see the
counterexample.) -/
theorem C7_notification_chunking (json : List Nat) (hlen1 : 1 ≤ json.length)
    (hcap : (json.length + 233) / 234 ≤ 255) :
    G2.notifDataFrames json =
      some (List.zipWith
        (fun j c =>
          [0xAA, 0x21, 0x49, c.length + 2, (json.length + 233) / 234, j, 0xC5, 0x00]
            ++ c ++ [G2.crc16_ccitt c &&& 0xFF, (G2.crc16_ccitt c >>> 8) &&& 0xFF])
        (List.range' 1 ((json.length + 233) / 234)) (G2.chunksOf 234 json)) ∧
    (G2.chunksOf 234 json).length = (json.length + 233) / 234 ∧
    (G2.chunksOf 234 json).flatten = json ∧
    (∀ c ∈ G2.chunksOf 234 json, c.length ≤ 234) := by
  have hcount : (G2.chunksOf 234 json).length = (json.length + 233) / 234 := by
    have h := G2.chunksOf_length 234 (by norm_num) json
    norm_num at h
    exact h
  refine ⟨?_, hcount, G2.chunksOf_flatten 234 (by norm_num) json,
    G2.chunksOf_mem_length 234 json⟩
  show G2.buildDataFrames (G2.chunksOf 234 json).length 0 (G2.chunksOf 234 json) = _
  rw [G2.buildDataFrames_eq (G2.chunksOf 234 json).length (by omega)
    (G2.chunksOf 234 json) 0 (G2.chunksOf_mem_length 234 json) (by omega), hcount]

/-- Witness for C7 at a concrete input (a 300-byte payload: two chunks). -/
theorem C7_notification_chunking_witness :
    G2.notifDataFrames (List.replicate 300 0x41) =
      some (List.zipWith
        (fun j c =>
          [0xAA, 0x21, 0x49, c.length + 2,
           ((List.replicate 300 (0x41 : Nat)).length + 233) / 234, j, 0xC5, 0x00]
            ++ c ++ [G2.crc16_ccitt c &&& 0xFF, (G2.crc16_ccitt c >>> 8) &&& 0xFF])
        (List.range' 1 (((List.replicate 300 (0x41 : Nat)).length + 233) / 234))
        (G2.chunksOf 234 (List.replicate 300 0x41))) ∧
    (G2.chunksOf 234 (List.replicate 300 (0x41 : Nat))).length =
      ((List.replicate 300 (0x41 : Nat)).length + 233) / 234 ∧
    (G2.chunksOf 234 (List.replicate 300 (0x41 : Nat))).flatten =
      List.replicate 300 0x41 ∧
    (∀ c ∈ G2.chunksOf 234 (List.replicate 300 (0x41 : Nat)), c.length ≤ 234) :=
  C7_notification_chunking (List.replicate 300 0x41) (by simp) (by simp)

/-- Counterexample to C7 as stated: a payload of 59671 bytes needs 256
fragments, the `totalFragments` byte overflows, and the DATA stage raises
instead of emitting 256 frames. -/
theorem C7_notification_chunking_counterexample :
    G2.notifDataFrames (List.replicate 59671 0) = none := by
  have hcount : (G2.chunksOf 234 (List.replicate 59671 (0 : Nat))).length = 256 := by
    have h := G2.chunksOf_length 234 (by norm_num) (List.replicate 59671 (0 : Nat))
    simp only [List.length_replicate] at h
    norm_num at h
    exact h
  obtain ⟨c, cs, hcs⟩ :=
    List.exists_cons_of_ne_nil (l := G2.chunksOf 234 (List.replicate 59671 (0 : Nat)))
      (by intro hnil; rw [hnil] at hcount; simp at hcount)
  unfold G2.notifDataFrames
  rw [hcs]
  show G2.buildDataFrames (c :: cs).length 0 (c :: cs) = none
  have hlen : (c :: cs).length = 256 := by
    rw [← hcs]
    exact hcount
  rw [hlen]
  have hfail : G2.build_packet 0x49 0xC5 0x00 c 256 (0 + 1) = none :=
    G2.build_packet_none_of_total 0x49 0xC5 0x00 256 (0 + 1) c (by omega)
  show (match G2.build_packet 0x49 0xC5 0x00 c 256 (0 + 1) with
    | none => none
    | some f =>
        match G2.buildDataFrames 256 (0 + 1) cs with
        | none => none
        | some rest => some (f :: rest)) = none
  rw [hfail]

/-! ## Claim C3 -/

namespace G2

/-- `n` consecutive `send_teleprompter` updates on one session. -/
def iterTelep (text : List Char) : Nat → G2State → G2State
  | 0, s => s
  | n + 1, s => iterTelep text n (send_teleprompter true s text).1

end G2

/-- Claim C3 is violated by the code (`code_bug`): the wrap check runs
only after a whole send, so inside a single `send_teleprompter` call the
counters pass `0xFF` mid-call.  Starting from a fresh connected session,
41 teleprompter updates leave `seq = 254`; during the 42nd update the
first two frame builders receive `seq = 254` and `255` and succeed, and
the third receives `seq = 0x100 = 256` — outside `0x08..0xFF` — whose
`bytes([...])` raises, aborting the send and leaving the session with
`seq = 256`, above a u8, with the wrap never applied. -/
theorem C3_seq_overflow_mid_call :
    (G2.iterTelep ['h', 'i'] 41 (G2.connectOk G2.initState)).seq = 254 ∧
    ((G2.send_teleprompter true (G2.iterTelep ['h', 'i'] 41 (G2.connectOk G2.initState))
        ['h', 'i']).2.map (fun p => (p.1, p.2.isSome)))
      = [(254, true), (255, true), (256, false)] ∧
    (G2.send_teleprompter true (G2.iterTelep ['h', 'i'] 41 (G2.connectOk G2.initState))
        ['h', 'i']).1.seq = 256 := by
  decide

/-! ## Claim C5 -/

/-- Claim C5 (amended): the session counters and latches persist across
reconnects: `disconnect` clears only the connected flag and a subsequent
successful `connect` restores it, leaving `seq`, `msgId` and both latches
exactly as they were; only constructing a fresh `G2Output` resets them. -/
theorem C5_reconnect_persistence (s : G2.G2State) :
    (G2.connectOk (G2.disconnect s)).seq = s.seq ∧
    (G2.connectOk (G2.disconnect s)).msgId = s.msgId ∧
    (G2.connectOk (G2.disconnect s)).evenai_initialized = s.evenai_initialized ∧
    (G2.connectOk (G2.disconnect s)).teleprompter_initialized =
      s.teleprompter_initialized ∧
    (G2.connectOk (G2.disconnect s)).connected = true := by
  unfold G2.connectOk G2.disconnect
  simp

/-- Counterexample to C5 as stated: after one Even-AI update on a fresh
connected session (`seq = 10`, `msgId = 22`, latch set), a disconnect
followed by a successful connect does not restore `seq = 0x08`,
`msgId = 0x14`, or clear the latch. -/
theorem C5_reconnect_persistence_counterexample :
    ¬ ((G2.connectOk (G2.disconnect
          ((G2.send_evenai true (G2.connectOk G2.initState) ['h', 'i']).1))).seq = 0x08 ∧
       (G2.connectOk (G2.disconnect
          ((G2.send_evenai true (G2.connectOk G2.initState) ['h', 'i']).1))).msgId = 0x14 ∧
       (G2.connectOk (G2.disconnect
          ((G2.send_evenai true (G2.connectOk G2.initState) ['h', 'i']).1))).evenai_initialized
         = false) := by
  decide


/-! ## Claim C4 -/

namespace G2

theorem pack32le_some (n : Nat) (h : n < 4294967296) :
    pack32le n = some [n % 256, n / 256 % 256, n / 65536 % 256, n / 16777216 % 256] := by
  unfold pack32le
  rw [if_pos h]

theorem fileCheckPayload_some (json : List Nat) (hsize : json.length < 16777216) :
    ∃ fc, fileCheckPayload json = some fc ∧ fc.length = 93 := by
  have h2 : (calc_file_check_fields json).1 < 4294967296 := by
    show json.length * 256 < 4294967296
    omega
  have h3 : (calc_file_check_fields json).2.1 < 4294967296 := by
    show (calc_crc32c json <<< 8) &&& 0xFFFFFFFF < 4294967296
    exact lt_of_le_of_lt Nat.and_le_right (by norm_num)
  unfold fileCheckPayload
  rw [pack32le_some 0x100 (by norm_num), pack32le_some _ h2, pack32le_some _ h3]
  refine ⟨_, rfl, ?_⟩
  simp only [List.length_append, List.length_cons, List.length_nil, List.length_replicate,
    show NOTIFY_FILENAME.length = 26 from rfl]

/-- A ready `send_notification` whose frame builds all succeed performs
the FILE_CHECK/START/DATA/END writes on the right eye, on its notification
characteristic, and finishes with the fixed heartbeat frame on the left
eye, on its write characteristic. -/
theorem send_notification_spec (json : List Nat)
    (hcap : (json.length + 233) / 234 ≤ 255) (hsize : json.length < 16777216) :
    ∃ ws, send_notification true json = some ws ∧
      ws.getLast? = some (Eye.left, GChar.writeChar, HEARTBEAT_FRAME) ∧
      (∀ w ∈ ws.dropLast, w.1 = Eye.right) := by
  obtain ⟨fc, hfc, hfclen⟩ := fileCheckPayload_some json hsize
  have hcount : (chunksOf 234 json).length = (json.length + 233) / 234 := by
    have h := chunksOf_length 234 (by norm_num) json
    norm_num at h
    exact h
  have hfcF := build_packet_some 0x10 0xC4 0x00 1 1 fc
    (by norm_num) (by norm_num) (by norm_num) (by norm_num) (by norm_num) (by omega)
  have hstart := build_packet_some 0x49 0xC4 0x00 1 1 [0x01]
    (by norm_num) (by norm_num) (by norm_num) (by norm_num) (by norm_num) (by simp)
  have hend := build_packet_some 0xDA 0xC4 0x00 1 1 [0x02]
    (by norm_num) (by norm_num) (by norm_num) (by norm_num) (by norm_num) (by simp)
  have hdata : notifDataFrames json =
      some (List.zipWith
        (fun j c =>
          [0xAA, 0x21, 0x49, c.length + 2, (chunksOf 234 json).length, j, 0xC5, 0x00]
            ++ c ++ [crc16_ccitt c &&& 0xFF, (crc16_ccitt c >>> 8) &&& 0xFF])
        (List.range' 1 (chunksOf 234 json).length) (chunksOf 234 json)) := by
    unfold notifDataFrames
    rw [buildDataFrames_eq (chunksOf 234 json).length (by omega)
      (chunksOf 234 json) 0 (chunksOf_mem_length 234 json) (by omega)]
  refine ⟨[(Eye.right, GChar.notifWriteChar,
        [0xAA, 0x21, 0x10, fc.length + 2, 1, 1, 0xC4, 0x00] ++ fc
          ++ [crc16_ccitt fc &&& 0xFF, (crc16_ccitt fc >>> 8) &&& 0xFF]),
       (Eye.right, GChar.notifWriteChar,
        [0xAA, 0x21, 0x49, ([0x01] : List Nat).length + 2, 1, 1, 0xC4, 0x00] ++ [0x01]
          ++ [crc16_ccitt [0x01] &&& 0xFF, (crc16_ccitt [0x01] >>> 8) &&& 0xFF])]
      ++ (List.zipWith
            (fun j c =>
              [0xAA, 0x21, 0x49, c.length + 2, (chunksOf 234 json).length, j, 0xC5, 0x00]
                ++ c ++ [crc16_ccitt c &&& 0xFF, (crc16_ccitt c >>> 8) &&& 0xFF])
            (List.range' 1 (chunksOf 234 json).length) (chunksOf 234 json)).map
           (fun f => (Eye.right, GChar.notifWriteChar, f))
      ++ [(Eye.right, GChar.notifWriteChar,
           [0xAA, 0x21, 0xDA, ([0x02] : List Nat).length + 2, 1, 1, 0xC4, 0x00] ++ [0x02]
             ++ [crc16_ccitt [0x02] &&& 0xFF, (crc16_ccitt [0x02] >>> 8) &&& 0xFF]),
          (Eye.left, GChar.writeChar, HEARTBEAT_FRAME)], ?_, ?_, ?_⟩
  · unfold send_notification
    rw [if_neg (by simp)]
    simp only [hfc, hfcF, hstart, hdata, hend]
  · rw [List.getLast?_append]
    rfl
  · intro w hw
    rw [List.dropLast_append_cons] at hw
    simp only [List.dropLast_cons₂, List.dropLast_single, List.mem_append,
      List.mem_cons, List.not_mem_nil, or_false] at hw
    rcases hw with ((hw | hw) | hw) | hw
    · rw [hw]
    · rw [hw]
    · obtain ⟨f, hf, rfl⟩ := List.mem_map.mp hw
      rfl
    · rw [hw]

end G2

/-- Claim C4 (amended): for a ready notification session and any
serialized JSON payload small enough that every frame build succeeds, the
final write performed by `send_notification` is the fixed 16-byte
heartbeat frame, and it goes to the left eye's write characteristic — the
eye that did not receive the FILE_CHECK/START/DATA/END frames, which all
go to the right eye.  (The heartbeat literal is 32 hex digits = 16 bytes,
not 17 as the original claim states.) -/
theorem C4_notification_heartbeat (json : List Nat)
    (hcap : (json.length + 233) / 234 ≤ 255) (hsize : json.length < 16777216) :
    G2.HEARTBEAT_FRAME.length = 16 ∧
    ∃ ws, G2.send_notification true json = some ws ∧
      ws.getLast? = some (G2.Eye.left, G2.GChar.writeChar, G2.HEARTBEAT_FRAME) ∧
      (∀ w ∈ ws.dropLast, w.1 = G2.Eye.right) :=
  ⟨rfl, G2.send_notification_spec json hcap hsize⟩

/-- Witness for C4 at a concrete one-byte JSON payload. -/
theorem C4_notification_heartbeat_witness :
    G2.HEARTBEAT_FRAME.length = 16 ∧
    ∃ ws, G2.send_notification true [123] = some ws ∧
      ws.getLast? = some (G2.Eye.left, G2.GChar.writeChar, G2.HEARTBEAT_FRAME) ∧
      (∀ w ∈ ws.dropLast, w.1 = G2.Eye.right) :=
  C4_notification_heartbeat [123] (by decide) (by decide)

/-- Counterexample to C4 as stated: the heartbeat frame written last by
`send_notification` has 16 bytes, not 17. -/
theorem C4_notification_heartbeat_counterexample :
    G2.HEARTBEAT_FRAME.length ≠ 17 ∧
    (G2.send_notification true [123]).isSome ∧
    ((G2.send_notification true [123]).getD []).getLast? =
      some (G2.Eye.left, G2.GChar.writeChar, G2.HEARTBEAT_FRAME) := by
  obtain ⟨ws, hws, hlast, _⟩ := G2.send_notification_spec [123] (by decide) (by decide)
  refine ⟨by decide, ?_, ?_⟩
  · rw [hws]
    rfl
  · rw [hws]
    exact hlast

/-! ## Claim C6 -/

namespace G2

end G2

namespace G2

theorem splitOnNl_cons (c : Char) (rest : List Char) :
    splitOnNl (c :: rest) =
      if c = '\n' then [] :: splitOnNl rest
      else (c :: (splitOnNl rest).headD []) :: (splitOnNl rest).tail := rfl

theorem splitOnNl_ne_nil (s : List Char) : splitOnNl s ≠ [] := by
  cases s with
  | nil => simp [splitOnNl]
  | cons c rest =>
      rw [splitOnNl_cons]
      split <;> simp

theorem splitOnNl_no_nl (s : List Char) : ∀ p ∈ splitOnNl s, '\n' ∉ p := by
  induction s with
  | nil =>
      intro p hp
      simp only [splitOnNl, List.mem_singleton] at hp
      subst hp
      simp
  | cons c rest ih =>
      intro p hp
      rw [splitOnNl_cons] at hp
      by_cases hc : c = '\n'
      · rw [if_pos hc] at hp
        rcases List.mem_cons.mp hp with rfl | hp
        · simp
        · exact ih p hp
      · rw [if_neg hc] at hp
        rcases List.mem_cons.mp hp with rfl | hp
        · intro hmem
          rcases List.mem_cons.mp hmem with h1 | h1
          · exact hc h1.symm
          · cases hps : splitOnNl rest with
            | nil => exact splitOnNl_ne_nil rest hps
            | cons q qs =>
                rw [hps] at h1
                exact ih q (by rw [hps]; exact List.mem_cons_self q qs) h1
        · exact ih p (List.mem_of_mem_tail hp)

theorem splitOnNl_append (a b : List Char) (ha : '\n' ∉ a) :
    splitOnNl (a ++ '\n' :: b) = a :: splitOnNl b := by
  induction a with
  | nil =>
      simp only [List.nil_append]
      rw [splitOnNl_cons, if_pos rfl]
  | cons c a ih =>
      have hc : c ≠ '\n' := fun h => ha (by rw [h]; exact List.mem_cons_self _ _)
      have ha' : '\n' ∉ a := fun h => ha (List.mem_cons_of_mem c h)
      rw [List.cons_append, splitOnNl_cons, if_neg hc, ih ha']
      rfl

theorem getLast?_cons_ne_nil {α : Type} (a : α) (l : List α) (h : l ≠ []) :
    (a :: l).getLast? = l.getLast? := by
  obtain ⟨x, xs, rfl⟩ := List.exists_cons_of_ne_nil h
  exact List.getLast?_cons_cons

theorem dropWhile_head_false (p : Char → Bool) (l : List Char) (c : Char)
    (rest : List Char) (h : l.dropWhile p = c :: rest) : p c = false := by
  induction l with
  | nil => simp at h
  | cons a l ih =>
      rw [List.dropWhile_cons] at h
      by_cases hp : p a = true
      · rw [if_pos hp] at h
        exact ih h
      · rw [if_neg hp] at h
        injection h with h1 h2
        subst h1
        simpa using hp

theorem pySplitWs_words (l : List Char) :
    ∀ w ∈ pySplitWs l, w ≠ [] ∧ ∀ c ∈ w, isPySpace c = false := by
  suffices h : ∀ (N : Nat) (l : List Char), l.length ≤ N →
      ∀ w ∈ pySplitWs l, w ≠ [] ∧ ∀ c ∈ w, isPySpace c = false from h l.length l le_rfl
  intro N
  induction N with
  | zero =>
      intro l hl w hw
      have hnil : l = [] := List.length_eq_zero.mp (by omega)
      subst hnil
      rw [pySplitWs_unfold] at hw
      simp only [List.dropWhile_nil] at hw
      simp at hw
  | succ N ih =>
      intro l hl w hw
      rw [pySplitWs_unfold] at hw
      cases hd : l.dropWhile isPySpace with
      | nil =>
          simp only [hd] at hw
          simp at hw
      | cons c rest =>
          simp only [hd, List.mem_cons] at hw
          rcases hw with rfl | hw
          · refine ⟨by simp, ?_⟩
            intro x hx
            rcases List.mem_cons.mp hx with rfl | hx
            · exact dropWhile_head_false isPySpace l x rest hd
            · have h2 := List.mem_takeWhile_imp hx
              simpa using h2
          · have hdl : (l.dropWhile isPySpace).length ≤ l.length :=
              (List.dropWhile_sublist _).length_le
            rw [hd] at hdl
            simp only [List.length_cons] at hdl
            have h2 : (rest.dropWhile (fun x => !isPySpace x)).length ≤ rest.length :=
              (List.dropWhile_sublist _).length_le
            exact ih (rest.dropWhile (fun x => !isPySpace x)) (by omega) w hw

theorem pyStrip_subset (l : List Char) : ∀ x ∈ pyStrip l, x ∈ l := by
  intro x hx
  unfold pyStrip at hx
  rw [List.mem_reverse] at hx
  have h1 := (List.dropWhile_sublist (l := (l.dropWhile isPySpace).reverse)
    isPySpace).subset hx
  rw [List.mem_reverse] at h1
  exact (List.dropWhile_sublist isPySpace).subset h1

theorem pyStrip_ne_nil (l : List Char) (c : Char) (hc : c ∈ l)
    (hcs : isPySpace c = false) : pyStrip l ≠ [] := by
  unfold pyStrip
  intro hcon
  rw [List.reverse_eq_nil_iff, List.dropWhile_eq_nil_iff] at hcon
  have hcd : c ∈ l.dropWhile isPySpace := by
    rcases List.mem_append.mp
        (by rw [List.takeWhile_append_dropWhile (p := isPySpace)]; exact hc) with h | h
    · exact absurd (List.mem_takeWhile_imp h) (by simp [hcs])
    · exact h
  have := hcon c (by rw [List.mem_reverse]; exact hcd)
  rw [hcs] at this
  exact Bool.false_ne_true this

end G2

namespace G2

theorem wrapWords_nil (cpl : Nat) (current : List Char) :
    wrapWords cpl [] current = ([], current) := rfl

theorem wrapWords_cons (cpl : Nat) (w : List Char) (ws : List (List Char))
    (current : List Char) :
    wrapWords cpl (w :: ws) current =
      if current.length + w.length + 1 > cpl then
        ((if current.isEmpty then [] else [pyStrip current]) ++
            (wrapWords cpl ws (w ++ [' '])).1,
         (wrapWords cpl ws (w ++ [' '])).2)
      else wrapWords cpl ws (current ++ w ++ [' ']) := rfl

theorem wrapWords_no_nl (cpl : Nat) :
    ∀ (ws : List (List Char)) (current : List Char),
      (∀ w ∈ ws, '\n' ∉ w) → '\n' ∉ current →
      (∀ e ∈ (wrapWords cpl ws current).1, '\n' ∉ e) ∧
        '\n' ∉ (wrapWords cpl ws current).2 := by
  intro ws
  induction ws with
  | nil =>
      intro current _ hcur
      rw [wrapWords_nil]
      exact ⟨by simp, hcur⟩
  | cons w ws ih =>
      intro current hws hcur
      have hw : '\n' ∉ w := hws w (List.mem_cons_self _ _)
      have hws' : ∀ x ∈ ws, '\n' ∉ x := fun x hx => hws x (List.mem_cons_of_mem _ hx)
      rw [wrapWords_cons]
      by_cases hc : current.length + w.length + 1 > cpl
      · rw [if_pos hc]
        have hnew : '\n' ∉ w ++ [' '] := by
          intro hmem
          rcases List.mem_append.mp hmem with h | h
          · exact hw h
          · simp at h
        obtain ⟨ih1, ih2⟩ := ih (w ++ [' ']) hws' hnew
        refine ⟨?_, ih2⟩
        intro e he
        rcases List.mem_append.mp he with he | he
        · by_cases hcur0 : current.isEmpty
          · rw [if_pos hcur0] at he
            simp at he
          · rw [if_neg hcur0] at he
            simp only [List.mem_singleton] at he
            subst he
            intro hmem
            exact hcur (pyStrip_subset current _ hmem)
        · exact ih1 e he
      · rw [if_neg hc]
        apply ih _ hws'
        intro hmem
        rcases List.mem_append.mp hmem with h | h
        · rcases List.mem_append.mp h with h2 | h2
          · exact hcur h2
          · exact hw h2
        · simp at h

theorem wrapWords_strip_ne_nil (cpl : Nat) :
    ∀ (ws : List (List Char)) (current : List Char), ws ≠ [] →
      (∀ w ∈ ws, w ≠ [] ∧ ∀ c ∈ w, isPySpace c = false) →
      pyStrip (wrapWords cpl ws current).2 ≠ [] := by
  intro ws
  induction ws with
  | nil => intro current h; exact absurd rfl h
  | cons w ws ih =>
      intro current _ hall
      obtain ⟨hwne, hwchars⟩ := hall w (List.mem_cons_self _ _)
      have hall' : ∀ x ∈ ws, x ≠ [] ∧ ∀ c ∈ x, isPySpace c = false :=
        fun x hx => hall x (List.mem_cons_of_mem _ hx)
      obtain ⟨c0, w', hw0⟩ := List.exists_cons_of_ne_nil hwne
      have hc0w : c0 ∈ w := by rw [hw0]; exact List.mem_cons_self _ _
      have hc0 : isPySpace c0 = false := hwchars c0 hc0w
      rw [wrapWords_cons]
      cases ws with
      | nil =>
          by_cases hc : current.length + w.length + 1 > cpl
          · rw [if_pos hc]
            show pyStrip (wrapWords cpl [] (w ++ [' '])).2 ≠ []
            rw [wrapWords_nil]
            exact pyStrip_ne_nil _ c0 (List.mem_append_left _ hc0w) hc0
          · rw [if_neg hc, wrapWords_nil]
            exact pyStrip_ne_nil _ c0
              (List.mem_append_left _ (List.mem_append_right _ hc0w)) hc0
      | cons w2 ws2 =>
          by_cases hc : current.length + w.length + 1 > cpl
          · rw [if_pos hc]
            exact ih (w ++ [' ']) (by simp) hall'
          · rw [if_neg hc]
            exact ih (current ++ w ++ [' ']) (by simp) hall'

theorem wrapOneLine_no_nl (cpl : Nat) (line : List Char) :
    ∀ e ∈ wrapOneLine cpl line, '\n' ∉ e := by
  unfold wrapOneLine
  by_cases hb : (pyStrip line).isEmpty
  · rw [if_pos hb]
    intro e he
    simp only [List.mem_singleton] at he
    subst he
    simp
  · rw [if_neg hb]
    intro e he
    have hwords : ∀ w ∈ pySplitWs line, '\n' ∉ w := by
      intro w hw hnl
      obtain ⟨_, hchars⟩ := pySplitWs_words line w hw
      have h2 := hchars '\n' hnl
      simp [isPySpace] at h2
    obtain ⟨h1, h2⟩ := wrapWords_no_nl cpl (pySplitWs line) [] hwords (by simp)
    rcases List.mem_append.mp he with he | he
    · exact h1 e he
    · by_cases hs : (pyStrip (wrapWords cpl (pySplitWs line) []).2).isEmpty
      · rw [if_pos hs] at he
        simp at he
      · rw [if_neg hs] at he
        simp only [List.mem_singleton] at he
        subst he
        intro hm
        exact h2 (pyStrip_subset _ _ hm)

theorem wrapOneLine_ne_nil (cpl : Nat) (line : List Char) :
    wrapOneLine cpl line ≠ [] := by
  unfold wrapOneLine
  by_cases hb : (pyStrip line).isEmpty
  · rw [if_pos hb]
    simp
  · rw [if_neg hb]
    have hne : pySplitWs line ≠ [] := by
      rw [pySplitWs_unfold]
      cases hd : line.dropWhile isPySpace with
      | nil =>
          exfalso
          apply hb
          unfold pyStrip
          rw [hd]
          simp
      | cons c rest => simp
    have hstrip := wrapWords_strip_ne_nil cpl (pySplitWs line) [] hne (pySplitWs_words line)
    show (wrapWords cpl (pySplitWs line) []).1 ++
        (if (pyStrip (wrapWords cpl (pySplitWs line) []).2).isEmpty then []
         else [pyStrip (wrapWords cpl (pySplitWs line) []).2]) ≠ []
    rw [if_neg (by simpa using hstrip)]
    simp

end G2

namespace G2

theorem splitOnNl_pageString (ls : List (List Char)) :
    ls ≠ [] → (∀ l ∈ ls, '\n' ∉ l) →
    (splitOnNl (pageString ls)).length = ls.length + 1 ∧
      (splitOnNl (pageString ls)).getLast? = some [] := by
  induction ls with
  | nil => intro h; exact absurd rfl h
  | cons l ls ih =>
      intro _ hnl
      cases ls with
      | nil =>
          have h1 : pageString [l] = (l ++ [' ']) ++ '\n' :: [] := by
            simp [pageString, nlJoin]
          have hnll : '\n' ∉ l ++ [' '] := by
            intro hm
            rcases List.mem_append.mp hm with h | h
            · exact hnl l (List.mem_cons_self _ _) h
            · simp at h
          rw [h1, splitOnNl_append _ _ hnll]
          refine ⟨?_, ?_⟩
          · simp [splitOnNl]
          · simp [splitOnNl]
      | cons l2 ls2 =>
          have h1 : pageString (l :: l2 :: ls2) = l ++ '\n' :: pageString (l2 :: ls2) := by
            show (l ++ '\n' :: nlJoin (l2 :: ls2)) ++ [' ', '\n'] = _
            rw [List.append_assoc]
            rfl
          rw [h1, splitOnNl_append _ _ (hnl l (List.mem_cons_self _ _))]
          obtain ⟨ihlen, ihlast⟩ := ih (by simp) (fun x hx => hnl x (List.mem_cons_of_mem _ hx))
          refine ⟨?_, ?_⟩
          · simp only [List.length_cons, ihlen]
          · rw [getLast?_cons_ne_nil _ _ (splitOnNl_ne_nil _)]
            exact ihlast

theorem pySplitlines_pageString (ls : List (List Char)) (hne : ls ≠ [])
    (hnl : ∀ l ∈ ls, '\n' ∉ l) :
    (pySplitlines (pageString ls)).length = ls.length := by
  obtain ⟨hlen, hlast⟩ := splitOnNl_pageString ls hne hnl
  unfold pySplitlines
  rw [if_pos hlast, List.length_dropLast, hlen]
  omega

theorem chunksOf_mem_subset {α : Type} (n : Nat) (l : List α) :
    ∀ c ∈ chunksOf n l, ∀ x ∈ c, x ∈ l := by
  suffices h : ∀ (N : Nat) (l : List α), l.length ≤ N →
      ∀ c ∈ chunksOf n l, ∀ x ∈ c, x ∈ l from h l.length l le_rfl
  intro N
  induction N with
  | zero =>
      intro l hl c hc
      have hnil : l = [] := List.length_eq_zero.mp (by omega)
      subst hnil
      rw [chunksOf_nil] at hc
      simp at hc
  | succ N ih =>
      intro l hl c hc x hx
      rcases eq_or_ne l [] with rfl | hne
      · rw [chunksOf_nil] at hc
        simp at hc
      · rcases eq_or_ne n 0 with rfl | hn
        · rw [chunksOf_unfold, if_pos (Or.inr rfl)] at hc
          simp at hc
        · rw [chunksOf_cons n l hne hn] at hc
          have hpos : 0 < l.length := List.length_pos.mpr hne
          have hdl : (l.drop n).length ≤ N := by
            rw [List.length_drop]
            omega
          rcases List.mem_cons.mp hc with rfl | hmem
          · exact List.take_subset n l hx
          · exact List.drop_subset n l (ih (l.drop n) hdl c hmem x hx)

theorem format_pages_spec (lpp : Nat) (hlpp : 1 ≤ lpp) (w2 : List (List Char))
    (hnl : ∀ e ∈ w2, '\n' ∉ e) :
    14 ≤ ((chunksOf lpp w2).map
          (fun g => pageString (g ++ List.replicate (lpp - g.length) [' '])) ++
        List.replicate
          (14 - ((chunksOf lpp w2).map
            (fun g => pageString (g ++ List.replicate (lpp - g.length) [' ']))).length)
          (pageString (List.replicate lpp [' ']))).length ∧
      ∀ p ∈ ((chunksOf lpp w2).map
          (fun g => pageString (g ++ List.replicate (lpp - g.length) [' '])) ++
        List.replicate
          (14 - ((chunksOf lpp w2).map
            (fun g => pageString (g ++ List.replicate (lpp - g.length) [' ']))).length)
          (pageString (List.replicate lpp [' ']))),
        (pySplitlines p).length = lpp := by
  refine ⟨?_, ?_⟩
  · rw [List.length_append, List.length_replicate]
    omega
  · intro p hp
    rcases List.mem_append.mp hp with hp | hp
    · obtain ⟨g, hg, hpg⟩ := List.mem_map.mp hp
      subst hpg
      have hglen : g.length ≤ lpp := chunksOf_mem_length lpp w2 g hg
      have harglen : (g ++ List.replicate (lpp - g.length) [' ']).length = lpp := by
        rw [List.length_append, List.length_replicate]
        omega
      have hargne : g ++ List.replicate (lpp - g.length) [' '] ≠ [] := by
        intro hcon
        rw [hcon] at harglen
        simp at harglen
        omega
      have hargnl : ∀ e ∈ g ++ List.replicate (lpp - g.length) [' '], '\n' ∉ e := by
        intro e he
        rcases List.mem_append.mp he with he | he
        · exact hnl e (chunksOf_mem_subset lpp w2 g hg e he)
        · rw [List.eq_of_mem_replicate he]
          simp
      rw [pySplitlines_pageString _ hargne hargnl, harglen]
    · rw [List.eq_of_mem_replicate hp]
      have hne : List.replicate lpp ([' '] : List Char) ≠ [] := by
        intro hcon
        have hc2 := congrArg List.length hcon
        simp at hc2
        omega
      have hnlr : ∀ e ∈ List.replicate lpp ([' '] : List Char), '\n' ∉ e := by
        intro e he
        rw [List.eq_of_mem_replicate he]
        simp
      rw [pySplitlines_pageString _ hne hnlr, List.length_replicate]

end G2

/-- Claim C8: for every input text and chars-per-line, and every lines-per-page
of at least 1, `format_teleprompter_text` succeeds and returns at least the
configured minimum page count (14 pages), with every returned page containing
exactly `lines_per_page` lines under `str.splitlines`.  The original claim's
quantification over every lines-per-page fails at 0, where the source's
`range(0, len(padded_lines), 0)` raises `ValueError` (see the
counterexample). -/
theorem C8_page_formatting (text : List Char) (cpl lpp : Nat) (hlpp : 1 ≤ lpp) :
    ∃ pages, G2.format_teleprompter_text text cpl lpp = some pages ∧
      14 ≤ pages.length ∧ ∀ p ∈ pages, (G2.pySplitlines p).length = lpp := by
  have hlpp0 : lpp ≠ 0 := by omega
  have hw0 : (G2.splitOnNl (G2.replaceBsN text)).flatMap (G2.wrapOneLine cpl) ≠ [] := by
    obtain ⟨l0, ls0, hls⟩ :=
      List.exists_cons_of_ne_nil (G2.splitOnNl_ne_nil (G2.replaceBsN text))
    rw [hls]
    simp only [List.flatMap_cons]
    intro hcon
    exact G2.wrapOneLine_ne_nil cpl l0 (List.append_eq_nil.mp hcon).1
  have hw0e : ¬(((G2.splitOnNl (G2.replaceBsN text)).flatMap
      (G2.wrapOneLine cpl)).isEmpty = true) := by
    simpa using hw0
  have hnl2 : ∀ e ∈ ((G2.splitOnNl (G2.replaceBsN text)).flatMap (G2.wrapOneLine cpl) ++
      List.replicate
        (lpp - ((G2.splitOnNl (G2.replaceBsN text)).flatMap (G2.wrapOneLine cpl)).length)
        [' ']), '\n' ∉ e := by
    intro e he
    rcases List.mem_append.mp he with he | he
    · obtain ⟨l0, hl0, hel⟩ := List.mem_flatMap.mp he
      exact G2.wrapOneLine_no_nl cpl l0 e hel
    · rw [List.eq_of_mem_replicate he]
      simp
  obtain ⟨hlen, hmem⟩ := G2.format_pages_spec lpp hlpp _ hnl2
  refine ⟨_, ?_, hlen, hmem⟩
  unfold G2.format_teleprompter_text
  simp only [if_neg hlpp0, if_neg hw0e]

/-- Witness for claim C8 at a concrete input. -/
theorem C8_page_formatting_witness :
    1 ≤ 5 ∧ ∃ pages, G2.format_teleprompter_text
        ['h', 'e', 'l', 'l', 'o', ' ', 'w', 'o', 'r', 'l', 'd'] 10 5 = some pages ∧
      14 ≤ pages.length ∧ ∀ p ∈ pages, (G2.pySplitlines p).length = 5 :=
  ⟨by decide,
   C8_page_formatting ['h', 'e', 'l', 'l', 'o', ' ', 'w', 'o', 'r', 'l', 'd'] 10 5
     (by decide)⟩

/-- Claim C8 counterexample: at `lines_per_page = 0` the source's
`range(0, len(padded_lines), 0)` raises `ValueError`, so no page list is
produced; the claim's quantification over every lines-per-page is refuted. -/
theorem C8_page_formatting_counterexample :
    G2.format_teleprompter_text ['h', 'i'] 25 0 = none := rfl
